import Mathlib

/-!
# organize.js: the file relocator

A shallow embedding of `src/organize.js`.

* The script is translated statement by statement (`log`, the two `forEach`
  callbacks, the top level statements). An uncaught exception is the `threw`
  result, which carries the state reached when the exception left the script.
* Node's `fs` and `path` modules are not part of the repository. The script is
  therefore written over an arbitrary implementation `F : NodeFs σ` of the calls
  it makes. Every theorem about the script holds for every such `F`; whatever a
  theorem needs to know about a call is one of its hypotheses. The only built-in
  assumptions are that the calls are deterministic and that a call that throws
  leaves the filesystem as it was.
* `posix` is one implementation, an in-memory tree of files and directories. It
  serves to exhibit concrete runs.
-/

namespace Organize

/-! ## The calls into Node -/

/-- An implementation of the `fs` and `path` calls of the script over states of
type `σ`. A call that throws returns the message of the error. `readFileSync`
is not called by the script; it is the means to say what a file holds. -/
structure NodeFs (σ : Type) where
  /-- Node `fs.existsSync(p)`. -/
  existsSync : σ → String → Bool
  /-- Node `fs.mkdirSync(p, { recursive: true })`. -/
  mkdirSync : σ → String → Except String σ
  /-- Node `fs.renameSync(oldPath, newPath)`. -/
  renameSync : σ → String → String → Except String σ
  /-- Node `fs.writeFileSync(p, data)`. -/
  writeFileSync : σ → String → String → Except String σ
  /-- Node `fs.appendFileSync(p, data)`. -/
  appendFileSync : σ → String → String → Except String σ
  /-- Node `path.dirname(p)`. -/
  dirname : String → String
  /-- Node `fs.readFileSync(p, 'utf8')`, `none` when it throws. -/
  readFileSync : σ → String → Option String

/-! ## The script -/

/-- A move rule `{ from, to }` of the `moves` array. -/
structure MoveRule where
  «from» : String
  «to» : String
  deriving DecidableEq, Repr

/-- Everything the script can change: the filesystem, the lines printed by
`console.log`, and the payloads the log file received through `writeFileSync`
and `appendFileSync`, oldest first. -/
structure World (σ : Type) where
  fs : σ
  stdout : List String
  logWrites : List String

/-- The outcome of a piece of the script: it ran to its end, or an exception
left it uncaught. -/
inductive Result (σ : Type) where
  | ok (w : World σ)
  | threw (w : World σ) (message : String)

/-- The state a result ends in. -/
def Result.world {σ : Type} : Result σ → World σ
  | .ok w => w
  | .threw w _ => w

/-- Did the piece of script run to its end? -/
def Result.isOk {σ : Type} : Result σ → Bool
  | .ok _ => true
  | .threw _ _ => false

/-- Line 4: `const logFile = 'organize_log.txt'`. -/
def logFile : String := "organize_log.txt"

/-- Lines 5-8: `log(msg)` prints `msg`, then appends `msg + '\n'` to the log
file. -/
def log {σ : Type} (F : NodeFs σ) (w : World σ) (msg : String) : Result σ :=
  let w1 : World σ := { w with stdout := w.stdout ++ [msg] }
  match F.appendFileSync w1.fs logFile (msg ++ "\n") with
  | .ok fs1 => .ok { w1 with fs := fs1, logWrites := w1.logWrites ++ [msg ++ "\n"] }
  | .error e => .threw w1 e

/-- The start marker written at line 10. -/
def startMarker : String := "Starting organization...\n"

/-- The message of line 23. -/
def createdMsg (dir : String) : String := "Created directory: " ++ dir

/-- The message of line 72. -/
def movedMsg (m : MoveRule) : String := "Moved: " ++ m.from ++ " -> " ++ m.to

/-- The message of line 74. -/
def errorMsg (m : MoveRule) (e : String) : String := "Error moving " ++ m.from ++ ": " ++ e

/-- The message of line 77. -/
def skippedMsg (m : MoveRule) : String := "Skipped (not found): " ++ m.from

/-- The message of line 81. -/
def completeMsg : String := "Organization complete."

/-- `Array.prototype.forEach` with a callback that may throw: the first
exception ends the loop. -/
def forEach {σ α : Type} (f : World σ → α → Result σ) : World σ → List α → Result σ
  | w, [] => .ok w
  | w, x :: xs =>
    match f w x with
    | .ok w1 => forEach f w1 xs
    | .threw w1 e => .threw w1 e

/-- Lines 20-25: the callback of `dirs.forEach`. -/
def createDir {σ : Type} (F : NodeFs σ) (w : World σ) (dir : String) : Result σ :=
  if !F.existsSync w.fs dir then
    match F.mkdirSync w.fs dir with
    | .ok fs1 => log F { w with fs := fs1 } (createdMsg dir)
    | .error e => .threw w e
  else
    .ok w

/-- Lines 67-70: make sure the directory of the destination exists. -/
def ensureTargetDir {σ : Type} (F : NodeFs σ) (fs : σ) (m : MoveRule) : Except String σ :=
  let targetDir := F.dirname m.to
  if !F.existsSync fs targetDir then F.mkdirSync fs targetDir else .ok fs

/-- Lines 66-72: the body of the `try` block. -/
def tryMove {σ : Type} (F : NodeFs σ) (w : World σ) (m : MoveRule) : Result σ :=
  match ensureTargetDir F w.fs m with
  | .error e => .threw w e
  | .ok fs1 =>
    match F.renameSync fs1 m.from m.to with
    | .error e => .threw { w with fs := fs1 } e
    | .ok fs2 => log F { w with fs := fs2 } (movedMsg m)

/-- Lines 63-79: the callback of `moves.forEach`. -/
def moveFile {σ : Type} (F : NodeFs σ) (w : World σ) (m : MoveRule) : Result σ :=
  if F.existsSync w.fs m.from then
    match tryMove F w m with
    | .ok w1 => .ok w1
    | .threw w1 e => log F w1 (errorMsg m e)
  else
    log F w (skippedMsg m)

/-- Lines 63-81: the move loop followed by the completion message. -/
def moveAll {σ : Type} (F : NodeFs σ) (w : World σ) (ms : List MoveRule) : Result σ :=
  match forEach (moveFile F) w ms with
  | .threw w1 e => .threw w1 e
  | .ok w1 => log F w1 completeMsg

/-- The state right after line 10 succeeded with the filesystem `fs1`. -/
def started {σ : Type} (fs1 : σ) : World σ :=
  { fs := fs1, stdout := [], logWrites := [startMarker] }

/-- The whole script for given `dirs` and `moves` arrays, started in the
filesystem state `fs0`. -/
def run {σ : Type} (F : NodeFs σ) (fs0 : σ) (ds : List String) (ms : List MoveRule) :
    Result σ :=
  match F.writeFileSync fs0 logFile startMarker with
  | .error e => .threw { fs := fs0, stdout := [], logWrites := [] } e
  | .ok fs1 =>
    match forEach (createDir F) (started fs1) ds with
    | .threw w e => .threw w e
    | .ok w1 => moveAll F w1 ms

/-- Lines 12-18: the `dirs` array. -/
def dirs : List String := ["docs/reports", "scripts", "data", "backups", "logs"]

/-- Lines 27-61: the `moves` array. -/
def moves : List MoveRule :=
  [ ⟨"AI-Engine-Research-Report.md", "docs/reports/AI-Engine-Research-Report.md"⟩,
    ⟨"BMAD_Documentation_Summary.md", "docs/BMAD_Documentation_Summary.md"⟩,
    ⟨"BMAD_IMPLEMENTATION_REPORT.md", "docs/reports/BMAD_IMPLEMENTATION_REPORT.md"⟩,
    ⟨"BMAD_TEST_REVIEW_REPORT.md", "docs/reports/BMAD_TEST_REVIEW_REPORT.md"⟩,
    ⟨"FINAL_SUMMARY.md", "docs/reports/FINAL_SUMMARY.md"⟩,
    ⟨"IMPLEMENTATION_REPORT.md", "docs/reports/IMPLEMENTATION_REPORT.md"⟩,
    ⟨"KNOWLEDGE_BASE_DOUBLE_REVIEW_REPORT.md",
      "docs/reports/KNOWLEDGE_BASE_DOUBLE_REVIEW_REPORT.md"⟩,
    ⟨"PROCESSING_SUMMARY.md", "docs/reports/PROCESSING_SUMMARY.md"⟩,
    ⟨"RESEARCH_STORIES_COMPLETION_REPORT.md",
      "docs/reports/RESEARCH_STORIES_COMPLETION_REPORT.md"⟩,
    ⟨"TABLE_DATA_REVIEW.md", "docs/reports/TABLE_DATA_REVIEW.md"⟩,
    ⟨"TESSERACT_DEPLOYMENT_README.md", "docs/TESSERACT_DEPLOYMENT_README.md"⟩,
    ⟨"TESSERACT_INSTALLATION_GUIDE.md", "docs/TESSERACT_INSTALLATION_GUIDE.md"⟩,
    ⟨"TESSERACT_SETUP_GUIDE.md", "docs/TESSERACT_SETUP_GUIDE.md"⟩,
    ⟨"advanced_ai_api_docs.md", "docs/advanced_ai_api_docs.md"⟩,
    ⟨"advanced_ai_glossaries.md", "docs/advanced_ai_glossaries.md"⟩,
    ⟨"advanced_ai_integration_guides.md", "docs/advanced_ai_integration_guides.md"⟩,
    ⟨"advanced_ai_references.md", "docs/advanced_ai_references.md"⟩,
    ⟨"advanced_ai_research_stories.md", "docs/advanced_ai_research_stories.md"⟩,
    ⟨"completion_report.md", "docs/reports/completion_report.md"⟩,
    ⟨"extract_docs.py", "scripts/extract_docs.py"⟩,
    ⟨"retry_extract.py", "scripts/retry_extract.py"⟩,
    ⟨"remove_uv.bat", "scripts/remove_uv.bat"⟩,
    ⟨"remove_uv.ps1", "scripts/remove_uv.ps1"⟩,
    ⟨"fix.js", "scripts/fix.js"⟩,
    ⟨"knowledge_base.json", "data/knowledge_base.json"⟩,
    ⟨"processing_tracker.db", "data/processing_tracker.db"⟩,
    ⟨"knowledge_base.json.backup", "backups/knowledge_base.json.backup"⟩,
    ⟨"knowledge_base.json.backup-before-pdfplumber",
      "backups/knowledge_base.json.backup-before-pdfplumber"⟩,
    ⟨"document_processing.log", "logs/document_processing.log"⟩,
    ⟨"output.log", "logs/output.log"⟩,
    ⟨"test_output.txt", "logs/test_output.txt"⟩,
    ⟨"test_fixes.py", "tests/test_fixes.py"⟩,
    ⟨"test_fixes_no_main.py", "tests/test_fixes_no_main.py"⟩ ]

/-- The script as it stands in the repository, started in the state `fs0`. -/
def organize {σ : Type} (F : NodeFs σ) (fs0 : σ) : Result σ := run F fs0 dirs moves

/-! ## Notions used to state the properties -/

/-- The message of the error raised inside the `try` block by the directory
creation of line 69 or the rename of line 71, if either throws. -/
def moveError {σ : Type} (F : NodeFs σ) (fs : σ) (m : MoveRule) : Option String :=
  match ensureTargetDir F fs m with
  | .error e => some e
  | .ok fs1 =>
    match F.renameSync fs1 m.from m.to with
    | .error e => some e
    | .ok _ => none

/-- The filesystem in which the rename of line 71 is called, or the one the rule
started in when line 69 threw. -/
def stateAtRename {σ : Type} (F : NodeFs σ) (fs : σ) (m : MoveRule) : σ :=
  match ensureTargetDir F fs m with
  | .error _ => fs
  | .ok fs1 => fs1

/-- The line `l` is one of the three lines the move loop prints for `m`. -/
def IsOutcome (m : MoveRule) (l : String) : Prop :=
  l = "Moved: " ++ m.from ++ " -> " ++ m.to ∨ l = "Skipped (not found): " ++ m.from ∨
    ∃ e, l = "Error moving " ++ m.from ++ ": " ++ e

/-- The text of a file made of the given lines, each ended by a newline. -/
def fileText : List String → String
  | [] => ""
  | l :: ls => (l ++ "\n") ++ fileText ls

/-- The string holds no newline character. -/
def NoNewline (s : String) : Prop := '\n' ∉ s.data

instance instDecidableNoNewline (s : String) : Decidable (NoNewline s) := by
  unfold NoNewline
  infer_instance

/-! ## An in-memory implementation

The tree below the working directory: regular files with their content,
directories, each possibly read-only (mode 0444 or 0555). There are no links,
one device, and nothing outside the working directory. -/

/-- An entry of the tree. -/
inductive Entry where
  | file (content : String) (readOnly : Bool)
  | dir (readOnly : Bool)
  deriving DecidableEq, Repr

/-- A tree: the entries by their path below the working directory, given by its
components; the first entry listed for a path is the one that counts. -/
abbrev Tree := List (List String × Entry)

/-- The pieces of a path between its slashes. -/
def splitSlash : List Char → List (List Char)
  | [] => [[]]
  | c :: cs =>
    if c = '/' then [] :: splitSlash cs
    else
      match splitSlash cs with
      | [] => [[c]]
      | h :: t => (c :: h) :: t

/-- Walk the pieces of a path from the components reached so far (in reverse):
empty pieces and `.` stay, `..` goes up, and a path that leaves the working
directory resolves to nothing. -/
def walk : List String → List (List Char) → Option (List String)
  | acc, [] => some acc.reverse
  | acc, piece :: rest =>
    if piece = [] ∨ piece = ['.'] then walk acc rest
    else if piece = ['.', '.'] then
      match acc with
      | [] => none
      | _ :: up => walk up rest
    else walk (String.mk piece :: acc) rest

/-- The components a relative path resolves to. The empty path and absolute
paths resolve to nothing. -/
def resolve (s : String) : Option (List String) :=
  match s.data with
  | [] => none
  | '/' :: _ => none
  | cs => walk [] (splitSlash cs)

/-- The entry at a resolved path; the working directory itself is a writable
directory. -/
def get (t : Tree) (p : List String) : Option Entry :=
  if p = [] then some (.dir false) else t.lookup p

/-- Is the entry a regular file? -/
def isFileE : Option Entry → Bool
  | some (.file _ _) => true
  | _ => false

/-- Is the entry a directory? -/
def isDirE : Option Entry → Bool
  | some (.dir _) => true
  | _ => false

/-- Is the entry read-only? -/
def isReadOnly : Option Entry → Bool
  | some (.file _ ro) => ro
  | some (.dir ro) => ro
  | none => false

/-- POSIX `dirname` as Node's `path.dirname` computes it. -/
def posixDirname (s : String) : String :=
  let hasRoot := s.data.head? == some '/'
  let noTrail := s.data.reverse.dropWhile (fun c => c == '/')
  let upTo := noTrail.dropWhile (fun c => c != '/')
  match upTo with
  | [] => if hasRoot then "/" else "."
  | _ :: pre =>
    if pre = [] then "/"
    else if pre = ['/'] then "//"
    else String.mk pre.reverse

/-- The tree after a successful recursive `mkdir`: the missing prefixes of `p`
are new writable directories. -/
def mkdirp (t : Tree) (p : List String) : Tree :=
  (p.inits.filter fun q => (get t q).isNone).map (fun q => (q, Entry.dir false)) ++ t

/-- Recursive `mkdir` in the tree. -/
def posixMkdir (t : Tree) (s : String) : Except String Tree :=
  match resolve s with
  | none => .error ("ENOENT: no such file or directory, mkdir '" ++ s ++ "'")
  | some p =>
    if isFileE (get t p) then
      .error ("EEXIST: file already exists, mkdir '" ++ s ++ "'")
    else if p.inits.any (fun q => isFileE (get t q)) then
      .error ("ENOTDIR: not a directory, mkdir '" ++ s ++ "'")
    else
      match p.inits.filter fun q => (get t q).isNone with
      | [] => .ok t
      | q :: _ =>
        if isReadOnly (get t q.dropLast) then
          .error ("EACCES: permission denied, mkdir '" ++ s ++ "'")
        else .ok (mkdirp t p)

/-- The tree after a successful rename: what was at `a` and below is at `b` and
below, what was at `b` is gone. -/
def moved (t : Tree) (a b : List String) : Tree :=
  (t.filter fun x => a.isPrefixOf x.1).map (fun x => (b ++ x.1.drop a.length, x.2)) ++
    t.filter fun x => !a.isPrefixOf x.1 && !b.isPrefixOf x.1

/-- Does something lie below the directory `b`? -/
def hasChildren (t : Tree) (b : List String) : Bool :=
  t.any fun x => b.isPrefixOf x.1 && x.1 != b && (get t x.1).isSome

/-- The text Node appends to the error code of a failed rename. -/
def renameArgs (sa sb : String) : String := ", rename '" ++ sa ++ "' -> '" ++ sb ++ "'"

/-- POSIX `rename` in the tree. -/
def posixRename (t : Tree) (sa sb : String) : Except String Tree :=
  match resolve sa, resolve sb with
  | some a, some b =>
    match get t a with
    | none => .error ("ENOENT: no such file or directory" ++ renameArgs sa sb)
    | some ea =>
      if a = [] ∨ b = [] then
        .error ("EBUSY: resource busy or locked" ++ renameArgs sa sb)
      else if isFileE (get t b.dropLast) then
        .error ("ENOTDIR: not a directory" ++ renameArgs sa sb)
      else if !isDirE (get t b.dropLast) then
        .error ("ENOENT: no such file or directory" ++ renameArgs sa sb)
      else if a = b then .ok t
      else if a.isPrefixOf b then
        .error ("EINVAL: invalid argument" ++ renameArgs sa sb)
      else if isReadOnly (get t a.dropLast) ∨ isReadOnly (get t b.dropLast) then
        .error ("EACCES: permission denied" ++ renameArgs sa sb)
      else if isFileE (some ea) ∧ isDirE (get t b) then
        .error ("EISDIR: illegal operation on a directory" ++ renameArgs sa sb)
      else if isDirE (some ea) ∧ isFileE (get t b) then
        .error ("ENOTDIR: not a directory" ++ renameArgs sa sb)
      else if b.isPrefixOf a ∨ hasChildren t b then
        .error ("ENOTEMPTY: directory not empty" ++ renameArgs sa sb)
      else .ok (moved t a b)
  | _, _ => .error ("ENOENT: no such file or directory" ++ renameArgs sa sb)

/-- Open the file at `s` for writing and store what `content` makes of what it
held: the common part of `writeFileSync` and `appendFileSync`. -/
def posixStore (t : Tree) (s : String) (content : String → String) : Except String Tree :=
  match resolve s with
  | none => .error ("ENOENT: no such file or directory, open '" ++ s ++ "'")
  | some p =>
    match get t p with
    | some (.dir _) => .error ("EISDIR: illegal operation on a directory, open '" ++ s ++ "'")
    | some (.file c ro) =>
      if ro then .error ("EACCES: permission denied, open '" ++ s ++ "'")
      else .ok ((p, .file (content c) false) :: t)
    | none =>
      if isFileE (get t p.dropLast) then
        .error ("ENOTDIR: not a directory, open '" ++ s ++ "'")
      else if !isDirE (get t p.dropLast) then
        .error ("ENOENT: no such file or directory, open '" ++ s ++ "'")
      else if isReadOnly (get t p.dropLast) then
        .error ("EACCES: permission denied, open '" ++ s ++ "'")
      else .ok ((p, .file (content "") false) :: t)

/-- The content of the regular file at `s`. -/
def posixRead (t : Tree) (s : String) : Option String :=
  match (resolve s).bind (get t) with
  | some (.file c _) => some c
  | _ => none

/-- The in-memory implementation of the calls. -/
def posix : NodeFs Tree where
  existsSync t s := ((resolve s).bind (get t)).isSome
  mkdirSync := posixMkdir
  renameSync := posixRename
  writeFileSync t s data := posixStore t s (fun _ => data)
  appendFileSync t s data := posixStore t s (fun c => c ++ data)
  dirname := posixDirname
  readFileSync := posixRead

/-! ## Properties of traces and of states that the script preserves -/

/-- The line `l` is one of the lines the script prints through `log`. -/
def IsLine (l : String) : Prop :=
  (∃ d, l = "Created directory: " ++ d) ∨ (∃ m, IsOutcome m l) ∨ l = "Organization complete."

/-- A property of what was printed and of what the log file received that
survives every call of `log`, whether the append succeeds or throws. -/
structure TraceInv {σ : Type} (F : NodeFs σ) (I : List String → List String → Prop) :
    Prop where
  logged : ∀ out lw msg, IsLine msg → I out lw → I (out ++ [msg]) (lw ++ [msg ++ "\n"])
  printed : ∀ out lw msg s e, F.appendFileSync s logFile (msg ++ "\n") = .error e →
    IsLine msg → I out lw → I (out ++ [msg]) lw

/-- The piece of script threw only if an append to the log file threw: the
exception is the one raised by appending the line printed last. -/
def ThrewByLog {σ : Type} (F : NodeFs σ) (r : Result σ) : Prop :=
  ∀ wE e, r = .threw wE e →
    ∃ line, wE.stdout.getLast? = some line ∧
      F.appendFileSync wE.fs logFile (line ++ "\n") = .error e

/-- A property of the filesystem and of what the log file received that
survives every successful call the script makes after line 10: a recursive
`mkdir`, the rename of one of the rules `ms`, an append to the log file. -/
structure StepInv {σ : Type} (F : NodeFs σ) (ms : List MoveRule)
    (J : σ → List String → Prop) : Prop where
  mkdir : ∀ s s' p lw, F.mkdirSync s p = .ok s' → J s lw → J s' lw
  rename : ∀ m ∈ ms, ∀ s s' lw, F.renameSync s m.from m.to = .ok s' → J s lw → J s' lw
  append : ∀ s s' t lw, F.appendFileSync s logFile t = .ok s' → J s lw → J s' (lw ++ [t])

/-- The error `e` is one that the `try` block of the rule `m` can catch: it is
raised by the recursive `mkdir`, by the rename, or by the append of the "Moved"
line, in some state. -/
def Raised {σ : Type} (F : NodeFs σ) (m : MoveRule) (e : String) : Prop :=
  ∃ s, F.mkdirSync s (F.dirname m.to) = .error e ∨ F.renameSync s m.from m.to = .error e ∨
    F.appendFileSync s logFile ("Moved: " ++ m.from ++ " -> " ++ m.to ++ "\n") = .error e

/-- The line `l` is one of the three lines the move loop prints for `m`, an
error line carrying an error the `try` block can catch. -/
def IsOutcomeOf {σ : Type} (F : NodeFs σ) (m : MoveRule) (l : String) : Prop :=
  l = "Moved: " ++ m.from ++ " -> " ++ m.to ∨ l = "Skipped (not found): " ++ m.from ∨
    ∃ e, Raised F m e ∧ l = "Error moving " ++ m.from ++ ": " ++ e

/-- The payloads one after the other. -/
def joinAll : List String → String
  | [] => ""
  | x :: xs => x ++ joinAll xs

/-! ## Example states -/

/-- The entry of a fresh log file, as line 10 leaves it. -/
def freshLog : List String × Entry := (["organize_log.txt"], .file startMarker false)

/-- The tree with a fresh log file added. -/
def withLog (t : Tree) : Tree := freshLog :: t

/-- A working directory holding `a.txt` with the content "hi". -/
def treeNote : Tree := [(["a.txt"], .file "hi" false)]

/-- The same after line 10. -/
def treeNoteStarted : Tree := [(["a.txt"], .file "hi" false), freshLog]

/-- The same with an existing directory `out`. -/
def treeNoteOut : Tree := [(["a.txt"], .file "hi" false), (["out"], .dir false), freshLog]

/-- A working directory holding the directory `logs` and the fresh log file. -/
def treeLogs : Tree := [(["logs"], .dir false), freshLog]

/-- A working directory holding the directory `a` and the fresh log file. -/
def treeDirA : Tree := [(["a"], .dir false), freshLog]

/-- A working directory holding `a.txt`, the directory `a` and the fresh log
file. -/
def treeNoteDirA : Tree := [(["a.txt"], .file "hi" false), (["a"], .dir false), freshLog]

/-- An empty working directory. -/
def treeEmpty : Tree := []

/-- A working directory holding a regular file named `data`. -/
def treeData : Tree := [(["data"], .file "x" false)]

/-- A working directory holding a regular file named `docs`. -/
def treeDocs : Tree := [(["docs"], .file "x" false)]

/-- The same after line 10. -/
def treeDocsStarted : Tree := [(["docs"], .file "x" false), freshLog]

/-- A working directory holding the read-only file `ro.txt` (mode 0444). -/
def treeReadOnly : Tree := [(["ro.txt"], .file "x" true)]

/-- A working directory holding the directory `a` and the read-only file
`ro.txt`. -/
def treeDirAReadOnly : Tree := [(["a"], .dir false), (["ro.txt"], .file "x" true)]

/-- The rule `{ from: 'a.txt', to: 'out/a.txt' }`. -/
def ruleNote : MoveRule := ⟨"a.txt", "out/a.txt"⟩

/-- The rule `{ from: 'a.txt', to: 'out' }`. -/
def ruleOntoDir : MoveRule := ⟨"a.txt", "out"⟩

/-- The rule `{ from: 'organize_log.txt', to: 'logs' }`. -/
def ruleLogOntoDir : MoveRule := ⟨"organize_log.txt", "logs"⟩

/-- The rule `{ from: 'a', to: 'a/b/c' }`. -/
def ruleIntoItself : MoveRule := ⟨"a", "a/b/c"⟩

/-- The rule `{ from: 'missing.txt', to: 'out/missing.txt' }`. -/
def ruleMissing : MoveRule := ⟨"missing.txt", "out/missing.txt"⟩

/-- The rule `{ from: 'organize_log.txt', to: 'old.txt' }`. -/
def ruleLogAway : MoveRule := ⟨"organize_log.txt", "old.txt"⟩

/-- The rule `{ from: 'ro.txt', to: 'organize_log.txt' }`. -/
def ruleOverLog : MoveRule := ⟨"ro.txt", "organize_log.txt"⟩

/-- The state left by a first run with `dirs = ['out']` and the single rule
`{ from: 'a.txt', to: 'out/a.txt' }`. -/
def treeAfterFirstRun : Tree := (run posix treeNote ["out"] [ruleNote]).world.fs

/-! ## Facts about the script -/

section Script

variable {σ : Type} (F : NodeFs σ)

theorem log_of_ok {w : World σ} {msg : String} {fs1 : σ}
    (h : F.appendFileSync w.fs logFile (msg ++ "\n") = .ok fs1) :
    log F w msg = .ok
      { fs := fs1, stdout := w.stdout ++ [msg], logWrites := w.logWrites ++ [msg ++ "\n"] } := by
  simp [log, h]

theorem log_of_error {w : World σ} {msg e : String}
    (h : F.appendFileSync w.fs logFile (msg ++ "\n") = .error e) :
    log F w msg = .threw
      { fs := w.fs, stdout := w.stdout ++ [msg], logWrites := w.logWrites } e := by
  simp [log, h]

/-- The two ways through `log`: the append succeeded, or it threw after the
line was printed. -/
theorem log_cases (w : World σ) (msg : String) :
    (∃ fs1, F.appendFileSync w.fs logFile (msg ++ "\n") = .ok fs1 ∧
      log F w msg = .ok
        { fs := fs1, stdout := w.stdout ++ [msg], logWrites := w.logWrites ++ [msg ++ "\n"] }) ∨
    (∃ e, F.appendFileSync w.fs logFile (msg ++ "\n") = .error e ∧
      log F w msg = .threw
        { fs := w.fs, stdout := w.stdout ++ [msg], logWrites := w.logWrites } e) := by
  cases h : F.appendFileSync w.fs logFile (msg ++ "\n") with
  | ok fs1 => exact Or.inl ⟨fs1, rfl, log_of_ok F h⟩
  | error e => exact Or.inr ⟨e, rfl, log_of_error F h⟩

theorem forEach_append {α : Type} (f : World σ → α → Result σ) (xs ys : List α)
    (w : World σ) :
    forEach f w (xs ++ ys) =
      match forEach f w xs with
      | .ok w1 => forEach f w1 ys
      | .threw w1 e => .threw w1 e := by
  induction xs generalizing w with
  | nil => rfl
  | cons x xs ih =>
    simp only [List.cons_append, forEach]
    cases f w x with
    | ok w1 => exact ih w1
    | threw w1 e => rfl

theorem forEach_append_of_ok {α : Type} {f : World σ → α → Result σ} {xs : List α}
    {w w1 : World σ} (h : forEach f w xs = .ok w1) (ys : List α) :
    forEach f w (xs ++ ys) = forEach f w1 ys := by
  rw [forEach_append, h]

theorem forEach_cons_of_ok {α : Type} {f : World σ → α → Result σ} {x : α}
    {w w1 : World σ} (h : f w x = .ok w1) (xs : List α) :
    forEach f w (x :: xs) = forEach f w1 xs := by
  simp [forEach, h]

theorem forEach_cons_of_threw {α : Type} {f : World σ → α → Result σ} {x : α}
    {w w1 : World σ} {e : String} (h : f w x = .threw w1 e) (xs : List α) :
    forEach f w (x :: xs) = .threw w1 e := by
  simp [forEach, h]

theorem existsSync_cases (fs : σ) (p : String) :
    F.existsSync fs p = true ∨ F.existsSync fs p = false := by
  cases F.existsSync fs p <;> simp

/-! ### The callback of the directory loop -/

theorem createDir_of_exists {w : World σ} {d : String} (h : F.existsSync w.fs d = true) :
    createDir F w d = .ok w := by
  simp [createDir, h]

theorem createDir_of_mkdir_error {w : World σ} {d e : String}
    (h : F.existsSync w.fs d = false) (he : F.mkdirSync w.fs d = .error e) :
    createDir F w d = .threw w e := by
  simp [createDir, h, he]

theorem createDir_of_mkdir_ok {w : World σ} {d : String} {fs1 : σ}
    (h : F.existsSync w.fs d = false) (hm : F.mkdirSync w.fs d = .ok fs1) :
    createDir F w d = log F { w with fs := fs1 } ("Created directory: " ++ d) := by
  simp [createDir, h, hm, createdMsg]

/-! ### The callback of the move loop -/

theorem ensureTargetDir_of_exists {fs : σ} {m : MoveRule}
    (h : F.existsSync fs (F.dirname m.to) = true) : ensureTargetDir F fs m = .ok fs := by
  simp [ensureTargetDir, h]

theorem ensureTargetDir_of_missing {fs : σ} {m : MoveRule}
    (h : F.existsSync fs (F.dirname m.to) = false) :
    ensureTargetDir F fs m = F.mkdirSync fs (F.dirname m.to) := by
  simp [ensureTargetDir, h]

/-- The state in which the rename is called is the one the rule started in, or
the one the recursive `mkdir` of the destination directory made of it. -/
theorem stateAtRename_cases (fs : σ) (m : MoveRule) :
    stateAtRename F fs m = fs ∨
      (F.existsSync fs (F.dirname m.to) = false ∧
        F.mkdirSync fs (F.dirname m.to) = .ok (stateAtRename F fs m)) := by
  unfold stateAtRename
  rcases existsSync_cases F fs (F.dirname m.to) with h | h
  · rw [ensureTargetDir_of_exists F h]
    exact Or.inl rfl
  · rw [ensureTargetDir_of_missing F h]
    cases hm : F.mkdirSync fs (F.dirname m.to) with
    | error e => exact Or.inl rfl
    | ok fs1 => exact Or.inr ⟨h, rfl⟩

theorem moveFile_of_missing {w : World σ} {m : MoveRule}
    (h : F.existsSync w.fs m.from = false) :
    moveFile F w m = log F w ("Skipped (not found): " ++ m.from) := by
  simp [moveFile, h, skippedMsg]

theorem moveFile_of_error {w : World σ} {m : MoveRule} {e : String}
    (h : F.existsSync w.fs m.from = true) (he : moveError F w.fs m = some e) :
    moveFile F w m
      = log F { w with fs := stateAtRename F w.fs m } ("Error moving " ++ m.from ++ ": " ++ e) := by
  unfold moveError at he
  unfold stateAtRename
  cases h1 : ensureTargetDir F w.fs m with
  | error e1 =>
    simp only [h1, Option.some.injEq] at he
    subst he
    simp [moveFile, h, tryMove, h1, errorMsg]
  | ok fs1 =>
    cases h2 : F.renameSync fs1 m.from m.to with
    | error e2 =>
      simp only [h1, h2, Option.some.injEq] at he
      subst he
      simp [moveFile, h, tryMove, h1, h2, errorMsg]
    | ok fs2 => simp [h1, h2] at he

/-- When neither the directory creation nor the rename throws, the rename was
called in `stateAtRename` and returned some `fs2`. -/
theorem renameSync_of_no_error {fs : σ} {m : MoveRule} (he : moveError F fs m = none) :
    ∃ fs2, ensureTargetDir F fs m = .ok (stateAtRename F fs m) ∧
      F.renameSync (stateAtRename F fs m) m.from m.to = .ok fs2 := by
  unfold moveError at he
  unfold stateAtRename
  cases h1 : ensureTargetDir F fs m with
  | error e1 => simp [h1] at he
  | ok fs1 =>
    cases h2 : F.renameSync fs1 m.from m.to with
    | error e2 => simp [h1, h2] at he
    | ok fs2 => exact ⟨fs2, rfl, rfl⟩

theorem moveFile_of_renamed {w : World σ} {m : MoveRule} {fs2 : σ}
    (h : F.existsSync w.fs m.from = true) (he : moveError F w.fs m = none)
    (h2 : F.renameSync (stateAtRename F w.fs m) m.from m.to = .ok fs2) :
    moveFile F w m =
      match log F { w with fs := fs2 } ("Moved: " ++ m.from ++ " -> " ++ m.to) with
      | .ok w1 => .ok w1
      | .threw w1 e => log F w1 ("Error moving " ++ m.from ++ ": " ++ e) := by
  obtain ⟨fs2', h1, h2'⟩ := renameSync_of_no_error F he
  rw [h2] at h2'
  cases h2'
  simp only [moveFile, h, if_true, tryMove, h1, h2, movedMsg, errorMsg]

theorem moveError_cases (fs : σ) (m : MoveRule) :
    moveError F fs m = none ∨ ∃ e, moveError F fs m = some e := by
  cases moveError F fs m with
  | none => exact Or.inl rfl
  | some e => exact Or.inr ⟨e, rfl⟩

end Script

section Invariants

variable {σ : Type} (F : NodeFs σ)

/-! ### Properties of the trace -/

theorem isLine_created (d : String) : IsLine ("Created directory: " ++ d) :=
  Or.inl ⟨d, rfl⟩

theorem isLine_moved (m : MoveRule) : IsLine ("Moved: " ++ m.from ++ " -> " ++ m.to) :=
  Or.inr (Or.inl ⟨m, Or.inl rfl⟩)

theorem isLine_skipped (m : MoveRule) : IsLine ("Skipped (not found): " ++ m.from) :=
  Or.inr (Or.inl ⟨m, Or.inr (Or.inl rfl)⟩)

theorem isLine_error (m : MoveRule) (e : String) :
    IsLine ("Error moving " ++ m.from ++ ": " ++ e) :=
  Or.inr (Or.inl ⟨m, Or.inr (Or.inr ⟨e, rfl⟩)⟩)

theorem isLine_complete : IsLine "Organization complete." := Or.inr (Or.inr rfl)

theorem log_trace {I : List String → List String → Prop} (hI : TraceInv F I)
    {w : World σ} {msg : String} (hmsg : IsLine msg) (h : I w.stdout w.logWrites) :
    I (log F w msg).world.stdout (log F w msg).world.logWrites := by
  rcases log_cases F w msg with ⟨fs1, _, hl⟩ | ⟨e, he, hl⟩
  · rw [hl]
    exact hI.logged _ _ _ hmsg h
  · rw [hl]
    exact hI.printed _ _ _ _ _ he hmsg h

theorem createDir_trace {I : List String → List String → Prop} (hI : TraceInv F I)
    {w : World σ} (d : String) (h : I w.stdout w.logWrites) :
    I (createDir F w d).world.stdout (createDir F w d).world.logWrites := by
  rcases existsSync_cases F w.fs d with hex | hex
  · rw [createDir_of_exists F hex]
    exact h
  · cases hm : F.mkdirSync w.fs d with
    | error e =>
      rw [createDir_of_mkdir_error F hex hm]
      exact h
    | ok fs1 =>
      rw [createDir_of_mkdir_ok F hex hm]
      exact log_trace F hI (w := { w with fs := fs1 }) (isLine_created d) h

theorem moveFile_trace {I : List String → List String → Prop} (hI : TraceInv F I)
    {w : World σ} (m : MoveRule) (h : I w.stdout w.logWrites) :
    I (moveFile F w m).world.stdout (moveFile F w m).world.logWrites := by
  rcases existsSync_cases F w.fs m.from with hex | hex
  · rcases moveError_cases F w.fs m with he | ⟨e, he⟩
    · obtain ⟨fs2, _, h2⟩ := renameSync_of_no_error F he
      rw [moveFile_of_renamed F hex he h2]
      rcases log_cases F { w with fs := fs2 } ("Moved: " ++ m.from ++ " -> " ++ m.to) with
        ⟨fs3, _, hl⟩ | ⟨e, he2, hl⟩
      · rw [hl]
        exact hI.logged _ _ _ (isLine_moved m) h
      · rw [hl]
        exact log_trace F hI (isLine_error m e) (hI.printed _ _ _ _ _ he2 (isLine_moved m) h)
    · rw [moveFile_of_error F hex he]
      exact log_trace F hI (w := { w with fs := stateAtRename F w.fs m }) (isLine_error m e) h
  · rw [moveFile_of_missing F hex]
    exact log_trace F hI (isLine_skipped m) h

theorem forEach_trace {α : Type} {I : List String → List String → Prop}
    {f : World σ → α → Result σ}
    (hf : ∀ w x, I w.stdout w.logWrites → I (f w x).world.stdout (f w x).world.logWrites)
    (xs : List α) {w : World σ} (h : I w.stdout w.logWrites) :
    I (forEach f w xs).world.stdout (forEach f w xs).world.logWrites := by
  induction xs generalizing w with
  | nil => exact h
  | cons x xs ih =>
    have hx := hf w x h
    cases hfx : f w x with
    | ok w1 =>
      rw [forEach_cons_of_ok hfx]
      rw [hfx] at hx
      exact ih hx
    | threw w1 e =>
      rw [forEach_cons_of_threw hfx]
      rw [hfx] at hx
      exact hx

theorem moveAll_trace {I : List String → List String → Prop} (hI : TraceInv F I)
    {w : World σ} (ms : List MoveRule) (h : I w.stdout w.logWrites) :
    I (moveAll F w ms).world.stdout (moveAll F w ms).world.logWrites := by
  have hloop := forEach_trace (f := moveFile F) (fun w m => moveFile_trace F hI m) ms h
  unfold moveAll
  cases hf : forEach (moveFile F) w ms with
  | ok w1 =>
    rw [hf] at hloop
    exact log_trace F hI isLine_complete hloop
  | threw w1 e =>
    rw [hf] at hloop
    exact hloop

/-- A run that passed line 10 ends in a state with every property of the trace
that holds right after line 10 and survives `log`. -/
theorem run_trace {I : List String → List String → Prop} (hI : TraceInv F I)
    {fs0 fs1 : σ} (ds : List String) (ms : List MoveRule)
    (h0 : F.writeFileSync fs0 logFile startMarker = .ok fs1) (h : I [] [startMarker]) :
    I (run F fs0 ds ms).world.stdout (run F fs0 ds ms).world.logWrites := by
  have hloop := forEach_trace (f := createDir F) (fun w d => createDir_trace F hI d) ds
    (w := started fs1) h
  simp only [run, h0]
  cases hf : forEach (createDir F) (started fs1) ds with
  | ok w1 =>
    rw [hf] at hloop
    exact moveAll_trace F hI ms hloop
  | threw w1 e =>
    rw [hf] at hloop
    exact hloop

/-! ### Where an exception can come from -/

theorem threwByLog_log (w : World σ) (msg : String) : ThrewByLog F (log F w msg) := by
  intro wE e h
  rcases log_cases F w msg with ⟨fs1, _, hl⟩ | ⟨e1, he, hl⟩
  · rw [hl] at h
    cases h
  · rw [hl] at h
    cases h
    exact ⟨msg, by simp, he⟩

theorem threwByLog_ok (w : World σ) : ThrewByLog F (.ok w) := by
  intro wE e h
  cases h

theorem threwByLog_moveFile (w : World σ) (m : MoveRule) : ThrewByLog F (moveFile F w m) := by
  rcases existsSync_cases F w.fs m.from with hex | hex
  · rcases moveError_cases F w.fs m with he | ⟨e, he⟩
    · obtain ⟨fs2, _, h2⟩ := renameSync_of_no_error F he
      rw [moveFile_of_renamed F hex he h2]
      cases hl : log F { w with fs := fs2 } ("Moved: " ++ m.from ++ " -> " ++ m.to) with
      | ok w1 => exact threwByLog_ok F w1
      | threw w1 e => exact threwByLog_log F w1 _
    · rw [moveFile_of_error F hex he]
      exact threwByLog_log F _ _
  · rw [moveFile_of_missing F hex]
    exact threwByLog_log F _ _

theorem threwByLog_forEach_moveFile (ms : List MoveRule) (w : World σ) :
    ThrewByLog F (forEach (moveFile F) w ms) := by
  induction ms generalizing w with
  | nil => exact threwByLog_ok F w
  | cons m ms ih =>
    cases hm : moveFile F w m with
    | ok w1 =>
      rw [forEach_cons_of_ok hm]
      exact ih w1
    | threw w1 e =>
      rw [forEach_cons_of_threw hm, ← hm]
      exact threwByLog_moveFile F w m

/-- The move loop and line 81 throw only if an append to the log file throws. -/
theorem threwByLog_moveAll (ms : List MoveRule) (w : World σ) :
    ThrewByLog F (moveAll F w ms) := by
  unfold moveAll
  cases hf : forEach (moveFile F) w ms with
  | ok w1 => exact threwByLog_log F w1 _
  | threw w1 e =>
    have := threwByLog_forEach_moveFile F ms w
    rw [hf] at this
    exact this

end Invariants

section OkRuns

variable {σ : Type} (F : NodeFs σ)

/-! ### Runs that end normally -/

theorem log_eq_ok {w w1 : World σ} {msg : String} (h : log F w msg = .ok w1) :
    ∃ fs1, F.appendFileSync w.fs logFile (msg ++ "\n") = .ok fs1 ∧
      w1 = { fs := fs1, stdout := w.stdout ++ [msg],
             logWrites := w.logWrites ++ [msg ++ "\n"] } := by
  rcases log_cases F w msg with ⟨fs1, ha, hl⟩ | ⟨e, _, hl⟩
  · rw [hl] at h
    cases h
    exact ⟨fs1, ha, rfl⟩
  · rw [hl] at h
    cases h

theorem createDir_eq_ok {w w1 : World σ} {d : String} (h : createDir F w d = .ok w1) :
    (F.existsSync w.fs d = true ∧ w1 = w) ∨
      (F.existsSync w.fs d = false ∧ ∃ fs1 fs2, F.mkdirSync w.fs d = .ok fs1 ∧
        F.appendFileSync fs1 logFile ("Created directory: " ++ d ++ "\n") = .ok fs2 ∧
        w1 = { fs := fs2, stdout := w.stdout ++ ["Created directory: " ++ d],
               logWrites := w.logWrites ++ ["Created directory: " ++ d ++ "\n"] }) := by
  rcases existsSync_cases F w.fs d with hex | hex
  · rw [createDir_of_exists F hex] at h
    cases h
    exact Or.inl ⟨hex, rfl⟩
  · cases hm : F.mkdirSync w.fs d with
    | error e =>
      rw [createDir_of_mkdir_error F hex hm] at h
      cases h
    | ok fs1 =>
      rw [createDir_of_mkdir_ok F hex hm] at h
      obtain ⟨fs2, ha, rfl⟩ := log_eq_ok F h
      exact Or.inr ⟨hex, fs1, fs2, rfl, ha, rfl⟩

theorem isOutcome_of {m : MoveRule} {l : String} (h : IsOutcomeOf F m l) : IsOutcome m l := by
  rcases h with h | h | ⟨e, _, h⟩
  · exact Or.inl h
  · exact Or.inr (Or.inl h)
  · exact Or.inr (Or.inr ⟨e, h⟩)

theorem raised_of_moveError {fs : σ} {m : MoveRule} {e : String}
    (he : moveError F fs m = some e) : Raised F m e := by
  unfold moveError at he
  rcases existsSync_cases F fs (F.dirname m.to) with hd | hd
  · rw [ensureTargetDir_of_exists F hd] at he
    cases hr : F.renameSync fs m.from m.to with
    | error e2 =>
      simp only [hr, Option.some.injEq] at he
      exact ⟨fs, Or.inr (Or.inl (by rw [hr, he]))⟩
    | ok fs2 => simp [hr] at he
  · rw [ensureTargetDir_of_missing F hd] at he
    cases hm : F.mkdirSync fs (F.dirname m.to) with
    | error e1 =>
      simp only [hm, Option.some.injEq] at he
      exact ⟨fs, Or.inl (by rw [hm, he])⟩
    | ok fs1 =>
      simp only [hm] at he
      cases hr : F.renameSync fs1 m.from m.to with
      | error e2 =>
        simp only [hr, Option.some.injEq] at he
        exact ⟨fs1, Or.inr (Or.inl (by rw [hr, he]))⟩
      | ok fs2 => simp [hr] at he

/-- A rule that ends normally made the log file receive exactly one line, one
of its three outcome lines, appended in a state `fsA` that the rule reached from
its start by at most the recursive `mkdir` and the rename. -/
theorem moveFile_eq_ok {w w1 : World σ} {m : MoveRule} (h : moveFile F w m = .ok w1) :
    ∃ fsA l, IsOutcomeOf F m l ∧
      (fsA = w.fs ∨ fsA = stateAtRename F w.fs m ∨
        F.renameSync (stateAtRename F w.fs m) m.from m.to = .ok fsA) ∧
      F.appendFileSync fsA logFile (l ++ "\n") = .ok w1.fs ∧
      w1.logWrites = w.logWrites ++ [l ++ "\n"] ∧
      (w1.stdout = w.stdout ++ [l] ∨
        w1.stdout = w.stdout ++ ["Moved: " ++ m.from ++ " -> " ++ m.to, l]) := by
  rcases existsSync_cases F w.fs m.from with hex | hex
  · rcases moveError_cases F w.fs m with he | ⟨e, he⟩
    · obtain ⟨fs2, _, h2⟩ := renameSync_of_no_error F he
      rw [moveFile_of_renamed F hex he h2] at h
      rcases log_cases F { w with fs := fs2 } ("Moved: " ++ m.from ++ " -> " ++ m.to) with
        ⟨fs3, ha, hl⟩ | ⟨e, hea, hl⟩
      · rw [hl] at h
        cases h
        exact ⟨fs2, _, Or.inl rfl, Or.inr (Or.inr h2), ha, rfl, Or.inl rfl⟩
      · rw [hl] at h
        obtain ⟨fs3, ha, rfl⟩ := log_eq_ok F h
        refine ⟨fs2, _, Or.inr (Or.inr ⟨e, ⟨fs2, Or.inr (Or.inr hea)⟩, rfl⟩),
          Or.inr (Or.inr h2), ha, rfl, Or.inr ?_⟩
        simp
    · rw [moveFile_of_error F hex he] at h
      obtain ⟨fs3, ha, rfl⟩ := log_eq_ok F h
      exact ⟨_, _, Or.inr (Or.inr ⟨e, raised_of_moveError F he, rfl⟩), Or.inr (Or.inl rfl), ha,
        rfl, Or.inl rfl⟩
  · rw [moveFile_of_missing F hex] at h
    obtain ⟨fs3, ha, rfl⟩ := log_eq_ok F h
    exact ⟨_, _, Or.inr (Or.inl rfl), Or.inl rfl, ha, rfl, Or.inl rfl⟩

theorem stepInv_stateAtRename {ms : List MoveRule} {J : σ → List String → Prop}
    (hJ : StepInv F ms J) {fs : σ} {lw : List String} (m : MoveRule) (h : J fs lw) :
    J (stateAtRename F fs m) lw := by
  rcases stateAtRename_cases F fs m with h1 | ⟨_, h1⟩
  · rw [h1]
    exact h
  · exact hJ.mkdir _ _ _ _ h1 h

theorem moveFile_ok_inv {ms : List MoveRule} {J : σ → List String → Prop}
    (hJ : StepInv F ms J) {w w1 : World σ} {m : MoveRule} (hm : m ∈ ms)
    (h : moveFile F w m = .ok w1) (hw : J w.fs w.logWrites) : J w1.fs w1.logWrites := by
  obtain ⟨fsA, l, _, hA, ha, hlw, _⟩ := moveFile_eq_ok F h
  have hJA : J fsA w.logWrites := by
    rcases hA with rfl | rfl | hr
    · exact hw
    · exact stepInv_stateAtRename F hJ m hw
    · exact hJ.rename m hm _ _ _ hr (stepInv_stateAtRename F hJ m hw)
  rw [hlw]
  exact hJ.append _ _ _ _ ha hJA

theorem createDir_ok_inv {ms : List MoveRule} {J : σ → List String → Prop}
    (hJ : StepInv F ms J) {w w1 : World σ} {d : String}
    (h : createDir F w d = .ok w1) (hw : J w.fs w.logWrites) : J w1.fs w1.logWrites := by
  rcases createDir_eq_ok F h with ⟨_, rfl⟩ | ⟨_, fs1, fs2, hm, ha, rfl⟩
  · exact hw
  · exact hJ.append _ _ _ _ ha (hJ.mkdir _ _ _ _ hm hw)

theorem forEach_createDir_ok_inv {ms : List MoveRule} {J : σ → List String → Prop}
    (hJ : StepInv F ms J) (ds : List String) {w w1 : World σ}
    (h : forEach (createDir F) w ds = .ok w1) (hw : J w.fs w.logWrites) :
    J w1.fs w1.logWrites := by
  induction ds generalizing w with
  | nil =>
    cases h
    exact hw
  | cons d ds ih =>
    cases hd : createDir F w d with
    | ok w2 =>
      rw [forEach_cons_of_ok hd] at h
      exact ih h (createDir_ok_inv F hJ hd hw)
    | threw w2 e =>
      rw [forEach_cons_of_threw hd] at h
      cases h

theorem forEach_moveFile_ok_inv {ms : List MoveRule} {J : σ → List String → Prop}
    (hJ : StepInv F ms J) (ms1 : List MoveRule) (hsub : ∀ m ∈ ms1, m ∈ ms)
    {w w1 : World σ} (h : forEach (moveFile F) w ms1 = .ok w1)
    (hw : J w.fs w.logWrites) : J w1.fs w1.logWrites := by
  induction ms1 generalizing w with
  | nil =>
    cases h
    exact hw
  | cons m ms1 ih =>
    cases hd : moveFile F w m with
    | ok w2 =>
      rw [forEach_cons_of_ok hd] at h
      exact ih (fun x hx => hsub x (List.mem_cons_of_mem _ hx)) h
        (moveFile_ok_inv F hJ (hsub m (List.mem_cons_self _ _)) hd hw)
    | threw w2 e =>
      rw [forEach_cons_of_threw hd] at h
      cases h

/-- The pieces of a run that ended normally. -/
theorem run_eq_ok {fs0 : σ} {ds : List String} {ms : List MoveRule} {w : World σ}
    (h : run F fs0 ds ms = .ok w) :
    ∃ fs1 w1 w2, F.writeFileSync fs0 logFile startMarker = .ok fs1 ∧
      forEach (createDir F) (started fs1) ds = .ok w1 ∧
      forEach (moveFile F) w1 ms = .ok w2 ∧
      log F w2 "Organization complete." = .ok w := by
  unfold run at h
  cases h0 : F.writeFileSync fs0 logFile startMarker with
  | error e => simp [h0] at h
  | ok fs1 =>
    simp only [h0] at h
    cases hd : forEach (createDir F) (started fs1) ds with
    | threw wd e => simp [hd] at h
    | ok w1 =>
      simp only [hd, moveAll] at h
      cases hmv : forEach (moveFile F) w1 ms with
      | threw wd e => simp [hmv] at h
      | ok w2 =>
        simp only [hmv] at h
        exact ⟨fs1, w1, w2, rfl, hd, hmv, h⟩

/-- A run that ended normally ends in a state with every property that holds
right after line 10 and survives the successful calls of the script. -/
theorem run_ok_inv {ms : List MoveRule} {J : σ → List String → Prop}
    (hJ : StepInv F ms J) {fs0 : σ} {ds : List String} {w : World σ}
    (h : run F fs0 ds ms = .ok w)
    (h0 : ∀ fs1, F.writeFileSync fs0 logFile startMarker = .ok fs1 → J fs1 [startMarker]) :
    J w.fs w.logWrites := by
  obtain ⟨fs1, w1, w2, hr, hd, hmv, hl⟩ := run_eq_ok F h
  have h1 := forEach_createDir_ok_inv F hJ ds hd (h0 fs1 hr)
  have h2 := forEach_moveFile_ok_inv F hJ ms (fun _ hm => hm) hmv h1
  obtain ⟨fs3, ha, rfl⟩ := log_eq_ok F hl
  exact hJ.append _ _ _ _ ha h2

/-- What the log file received during a directory loop that ended normally. -/
theorem forEach_createDir_ok_writes (ds : List String) {w w1 : World σ}
    (h : forEach (createDir F) w ds = .ok w1) :
    ∃ created, List.Sublist created ds ∧
      w1.stdout = w.stdout ++ created.map (fun d => "Created directory: " ++ d) ∧
      w1.logWrites
        = w.logWrites ++ created.map (fun d => "Created directory: " ++ d ++ "\n") := by
  induction ds generalizing w with
  | nil =>
    cases h
    exact ⟨[], List.Sublist.slnil, by simp, by simp⟩
  | cons d ds ih =>
    cases hd : createDir F w d with
    | threw w2 e =>
      rw [forEach_cons_of_threw hd] at h
      cases h
    | ok w2 =>
      rw [forEach_cons_of_ok hd] at h
      obtain ⟨created, hsub, hs, hw⟩ := ih h
      rcases createDir_eq_ok F hd with ⟨_, rfl⟩ | ⟨_, fs1, fs2, _, _, rfl⟩
      · exact ⟨created, List.Sublist.cons d hsub, hs, hw⟩
      · refine ⟨d :: created, List.Sublist.cons₂ d hsub, ?_, ?_⟩
        · rw [hs]; simp
        · rw [hw]; simp

/-- What the log file received during a move loop that ended normally. -/
theorem forEach_moveFile_ok_writes (ms : List MoveRule) {w w1 : World σ}
    (h : forEach (moveFile F) w ms = .ok w1) :
    ∃ lines, List.Forall₂ (IsOutcomeOf F) ms lines ∧
      w1.logWrites = w.logWrites ++ lines.map (fun l => l ++ "\n") := by
  induction ms generalizing w with
  | nil =>
    cases h
    exact ⟨[], List.Forall₂.nil, by simp⟩
  | cons m ms ih =>
    cases hd : moveFile F w m with
    | threw w2 e =>
      rw [forEach_cons_of_threw hd] at h
      cases h
    | ok w2 =>
      rw [forEach_cons_of_ok hd] at h
      obtain ⟨lines, hl, hw⟩ := ih h
      obtain ⟨_, l, hout, _, _, hlw, _⟩ := moveFile_eq_ok F hd
      refine ⟨l :: lines, List.Forall₂.cons hout hl, ?_⟩
      rw [hw, hlw]
      simp

theorem forall₂_isOutcome {ms : List MoveRule} {lines : List String}
    (h : List.Forall₂ (IsOutcomeOf F) ms lines) :
    List.Forall₂ IsOutcome ms lines ∧ ∀ l ∈ lines, ∃ m ∈ ms, IsOutcomeOf F m l := by
  induction h with
  | nil => exact ⟨List.Forall₂.nil, by simp⟩
  | cons hml _ ih =>
    refine ⟨List.Forall₂.cons (isOutcome_of F hml) ih.1, ?_⟩
    intro l hl
    rcases List.mem_cons.1 hl with rfl | hl
    · exact ⟨_, List.mem_cons_self _ _, hml⟩
    · obtain ⟨m, hm, hout⟩ := ih.2 l hl
      exact ⟨m, List.mem_cons_of_mem _ hm, hout⟩

end OkRuns

/-! ### Messages -/

theorem ne_of_take_ne (n : Nat) {s t : String} (h : s.data.take n ≠ t.data.take n) :
    s ≠ t := by
  rintro rfl
  exact h rfl

theorem created_take (d : String) : ("Created directory: " ++ d).data.take 2 = ['C', 'r'] := by
  simp only [String.data_append]
  rfl

theorem moved_take (a b : String) :
    ("Moved: " ++ a ++ " -> " ++ b).data.take 2 = ['M', 'o'] := by
  simp only [String.data_append, List.append_assoc]
  rfl

theorem skipped_take (a : String) : ("Skipped (not found): " ++ a).data.take 2 = ['S', 'k'] := by
  simp only [String.data_append]
  rfl

theorem error_take (a e : String) :
    ("Error moving " ++ a ++ ": " ++ e).data.take 2 = ['E', 'r'] := by
  simp only [String.data_append, List.append_assoc]
  rfl

theorem outcome_take {m : MoveRule} {l : String} (h : IsOutcome m l) :
    l.data.take 2 = ['M', 'o'] ∨ l.data.take 2 = ['S', 'k'] ∨ l.data.take 2 = ['E', 'r'] := by
  rcases h with rfl | rfl | ⟨e, rfl⟩
  · exact Or.inl (moved_take _ _)
  · exact Or.inr (Or.inl (skipped_take _))
  · exact Or.inr (Or.inr (error_take _ _))

theorem outcome_ne_complete {m : MoveRule} {l : String} (h : IsOutcome m l) :
    l ≠ "Organization complete." := by
  apply ne_of_take_ne 2
  rcases outcome_take h with h1 | h1 | h1 <;> rw [h1] <;> decide

theorem outcome_ne_start {m : MoveRule} {l : String} (h : IsOutcome m l) :
    l ≠ "Starting organization..." := by
  apply ne_of_take_ne 2
  rcases outcome_take h with h1 | h1 | h1 <;> rw [h1] <;> decide

theorem created_ne_complete (d : String) :
    "Created directory: " ++ d ≠ "Organization complete." := by
  apply ne_of_take_ne 2
  rw [created_take]
  decide

theorem created_ne_start (d : String) :
    "Created directory: " ++ d ≠ "Starting organization..." := by
  apply ne_of_take_ne 2
  rw [created_take]
  decide

/-- No line printed through `log` is the text of the start marker. -/
theorem isLine_ne_start {l : String} (h : IsLine l) : l ≠ "Starting organization..." := by
  rcases h with ⟨d, rfl⟩ | ⟨m, hm⟩ | rfl
  · exact created_ne_start d
  · exact outcome_ne_start hm
  · decide

theorem noNewline_append {a b : String} : NoNewline (a ++ b) ↔ NoNewline a ∧ NoNewline b := by
  simp [NoNewline, String.data_append]

theorem noNewline_created {d : String} (h : NoNewline d) :
    NoNewline ("Created directory: " ++ d) :=
  noNewline_append.2 ⟨by decide, h⟩

theorem noNewline_moved {a b : String} (ha : NoNewline a) (hb : NoNewline b) :
    NoNewline ("Moved: " ++ a ++ " -> " ++ b) :=
  noNewline_append.2 ⟨noNewline_append.2 ⟨noNewline_append.2 ⟨by decide, ha⟩, by decide⟩, hb⟩

theorem noNewline_skipped {a : String} (ha : NoNewline a) :
    NoNewline ("Skipped (not found): " ++ a) :=
  noNewline_append.2 ⟨by decide, ha⟩

theorem noNewline_error {a e : String} (ha : NoNewline a) (he : NoNewline e) :
    NoNewline ("Error moving " ++ a ++ ": " ++ e) :=
  noNewline_append.2 ⟨noNewline_append.2 ⟨noNewline_append.2 ⟨by decide, ha⟩, by decide⟩, he⟩

theorem joinAll_append (xs ys : List String) : joinAll (xs ++ ys) = joinAll xs ++ joinAll ys := by
  induction xs with
  | nil => simp [joinAll]
  | cons x xs ih => simp [joinAll, ih, String.append_assoc]

theorem joinAll_lines (ls : List String) :
    joinAll (ls.map fun l => l ++ "\n") = fileText ls := by
  induction ls with
  | nil => rfl
  | cons l ls ih => simp [joinAll, fileText, ih]

section Throws

variable {σ : Type} (F : NodeFs σ)

/-! ### How the directory loop can throw -/

/-- A directory loop that throws stopped at a listed path that is missing and
cannot be created, in the state reached before it, or at an append to the log
file that threw. -/
theorem forEach_createDir_eq_threw (ds : List String) {w wE : World σ} {e : String}
    (h : forEach (createDir F) w ds = .threw wE e) :
    (∃ pre d post, ds = pre ++ d :: post ∧ forEach (createDir F) w pre = .ok wE ∧
        F.existsSync wE.fs d = false ∧ F.mkdirSync wE.fs d = .error e) ∨
      (∃ line, wE.stdout.getLast? = some line ∧
        F.appendFileSync wE.fs logFile (line ++ "\n") = .error e) := by
  induction ds generalizing w with
  | nil => cases h
  | cons d ds ih =>
    cases hd : createDir F w d with
    | ok w1 =>
      rw [forEach_cons_of_ok hd] at h
      rcases ih h with ⟨pre, d', post, hsplit, hpre, hmiss, hmk⟩ | hlog
      · refine Or.inl ⟨d :: pre, d', post, by rw [hsplit]; rfl, ?_, hmiss, hmk⟩
        rw [forEach_cons_of_ok hd]
        exact hpre
      · exact Or.inr hlog
    | threw w1 e1 =>
      rw [forEach_cons_of_threw hd] at h
      cases h
      rcases existsSync_cases F w.fs d with hex | hex
      · rw [createDir_of_exists F hex] at hd
        cases hd
      · cases hm : F.mkdirSync w.fs d with
        | error e2 =>
          rw [createDir_of_mkdir_error F hex hm] at hd
          cases hd
          exact Or.inl ⟨[], d, ds, rfl, rfl, hex, hm⟩
        | ok fs1 =>
          rw [createDir_of_mkdir_ok F hex hm] at hd
          exact Or.inr (threwByLog_log F _ _ _ _ hd)

/-! ### Three properties of the trace -/

theorem traceInv_sublist :
    TraceInv F (fun out lw =>
      ∃ sub, List.Sublist sub out ∧ lw = startMarker :: sub.map (fun l => l ++ "\n")) where
  logged := by
    rintro out lw msg _ ⟨sub, hsub, rfl⟩
    exact ⟨sub ++ [msg], List.Sublist.append hsub (List.Sublist.refl _), by simp⟩
  printed := by
    rintro out lw msg _ _ _ _ ⟨sub, hsub, rfl⟩
    exact ⟨sub, hsub.trans (List.sublist_append_left out [msg]), rfl⟩

theorem traceInv_mirror (hlog : ∀ s t e, F.appendFileSync s logFile t ≠ .error e) :
    TraceInv F (fun out lw => lw = startMarker :: out.map (fun l => l ++ "\n")) where
  logged := by
    rintro out lw msg _ rfl
    simp
  printed := by
    intro out lw msg s e he
    exact absurd he (hlog s _ e)

theorem traceInv_lines : TraceInv F (fun out _ => ∀ l ∈ out, IsLine l) where
  logged := by
    intro out lw msg hmsg h l hl
    rcases List.mem_append.1 hl with h1 | h1
    · exact h l h1
    · rw [List.mem_singleton.1 h1]
      exact hmsg
  printed := by
    intro out lw msg _ _ _ hmsg h l hl
    rcases List.mem_append.1 hl with h1 | h1
    · exact h l h1
    · rw [List.mem_singleton.1 h1]
      exact hmsg

end Throws

/-! ## Facts about the in-memory implementation -/

theorem get_cons (t : Tree) (p q : List String) (e : Entry) (hp : p ≠ []) :
    get ((p, e) :: t) q = if q = p then some e else get t q := by
  unfold get
  by_cases hq : q = []
  · subst hq
    simp [Ne.symm hp]
  · simp only [hq, if_false, List.lookup_cons]
    by_cases hqp : q = p
    · simp [hqp]
    · have hb : (q == p) = false := by simpa using hqp
      simp [hb, hqp]

theorem lookup_map_const (l : List (List String)) (v : Entry) (k : List String) :
    (l.map fun q => (q, v)).lookup k = if k ∈ l then some v else none := by
  induction l with
  | nil => simp
  | cons x xs ih =>
    simp only [List.map_cons, List.lookup_cons, ih, List.mem_cons]
    by_cases hk : k = x
    · simp [hk]
    · have hb : (k == x) = false := by simpa using hk
      simp [hb, hk]

/-- The entries of the tree after a recursive `mkdir` of `p`. -/
theorem get_mkdirp (t : Tree) (p q : List String) :
    get (mkdirp t p) q
      = if q ∈ p.inits ∧ (get t q).isNone = true then some (.dir false) else get t q := by
  by_cases hq : q = []
  · subst hq
    simp [get]
  · unfold mkdirp
    have hg : ∀ t1 : Tree, get t1 q = t1.lookup q := fun t1 => by simp [get, hq]
    rw [hg, hg, List.lookup_append, lookup_map_const]
    by_cases hmem : q ∈ p.inits ∧ (get t q).isNone = true
    · have : q ∈ List.filter (fun q => (get t q).isNone) p.inits :=
        List.mem_filter.2 ⟨hmem.1, hmem.2⟩
      rw [hg] at hmem
      rw [if_pos this, if_pos hmem]
      rfl
    · have : ¬ q ∈ List.filter (fun q => (get t q).isNone) p.inits := by
        intro hc
        exact hmem (List.mem_filter.1 hc)
      rw [hg] at hmem
      rw [if_neg this, if_neg hmem]
      rfl

/-- What a successful `mkdirSync` of the implementation did. -/
theorem posixMkdir_eq_ok {t t1 : Tree} {s : String} (h : posixMkdir t s = .ok t1) :
    ∃ p, resolve s = some p ∧ ∀ q, get t1 q = get (mkdirp t p) q := by
  unfold posixMkdir at h
  cases hr : resolve s with
  | none => simp [hr] at h
  | some p =>
    simp only [hr] at h
    split at h
    · cases h
    · split at h
      · cases h
      · split at h
        · rename_i hnil
          cases h
          refine ⟨p, rfl, ?_⟩
          intro q
          rw [get_mkdirp]
          have : ¬ (q ∈ p.inits ∧ (get t q).isNone = true) := by
            intro hc
            have : q ∈ List.filter (fun q => (get t q).isNone) p.inits :=
              List.mem_filter.2 ⟨hc.1, hc.2⟩
            rw [hnil] at this
            cases this
          rw [if_neg this]
        · split at h
          · cases h
          · cases h
            exact ⟨p, rfl, fun _ => rfl⟩

theorem posixMkdir_keeps {t t1 : Tree} {s : String} (h : posixMkdir t s = .ok t1)
    {q : List String} (hq : get t q ≠ none) : get t1 q = get t q := by
  obtain ⟨p, _, hp⟩ := posixMkdir_eq_ok h
  rw [hp, get_mkdirp]
  have : (get t q).isNone = false := by
    cases hg : get t q with
    | none => exact absurd hg hq
    | some e => rfl
  simp [this]

theorem posixMkdir_exists {t t1 : Tree} {s : String} (h : posixMkdir t s = .ok t1) :
    posix.existsSync t1 s = true := by
  obtain ⟨p, hr, hp⟩ := posixMkdir_eq_ok h
  show ((resolve s).bind (get t1)).isSome = true
  rw [hr]
  show (get t1 p).isSome = true
  rw [hp, get_mkdirp]
  by_cases hn : (get t p).isNone = true
  · simp [hn]
  · have : ¬ (p ∈ p.inits ∧ (get t p).isNone = true) := fun hc => hn hc.2
    rw [if_neg this]
    cases hg : get t p with
    | none => simp [hg] at hn
    | some e => rfl

/-- What a successful write or append of the implementation did. -/
theorem posixStore_eq_ok {t t1 : Tree} {s : String} {f : String → String}
    (h : posixStore t s f = .ok t1) :
    ∃ p c, resolve s = some p ∧ p ≠ [] ∧ t1 = (p, .file c false) :: t ∧
      ((∃ c0, get t p = some (.file c0 false) ∧ c = f c0) ∨ (get t p = none ∧ c = f "")) := by
  unfold posixStore at h
  cases hr : resolve s with
  | none => simp [hr] at h
  | some p =>
    simp only [hr] at h
    have hp : get t p ≠ some (.dir false) → p ≠ [] := by
      intro hg hnil
      subst hnil
      exact hg (by simp [get])
    cases hg : get t p with
    | none =>
      simp only [hg] at h
      split at h
      · cases h
      · split at h
        · cases h
        · split at h
          · cases h
          · cases h
            exact ⟨p, _, rfl, hp (by rw [hg]; simp), rfl, Or.inr ⟨hg, rfl⟩⟩
    | some e =>
      cases e with
      | dir ro => simp [hg] at h
      | file c0 ro =>
        simp only [hg] at h
        split at h
        · cases h
        · rename_i hro
          cases h
          have hro2 : ro = false := by simpa using hro
          subst hro2
          exact ⟨p, _, rfl, hp (by rw [hg]; simp), rfl, Or.inl ⟨c0, hg, rfl⟩⟩

theorem resolve_logFile : resolve logFile = some ["organize_log.txt"] := by decide

/-- A write or an append to the log file leaves every other entry alone. -/
theorem posixStore_logFile_frame {t t1 : Tree} {f : String → String}
    (h : posixStore t logFile f = .ok t1) {q : List String}
    (hq : q ≠ ["organize_log.txt"]) : get t1 q = get t q := by
  obtain ⟨p, c, hr, hp, rfl, _⟩ := posixStore_eq_ok h
  rw [resolve_logFile] at hr
  cases hr
  rw [get_cons _ _ _ _ hp, if_neg hq]

/-- A write or an append removes nothing. -/
theorem posixStore_keeps {t t1 : Tree} {s : String} {f : String → String}
    (h : posixStore t s f = .ok t1) {q : List String} (hq : get t q ≠ none) :
    get t1 q ≠ none := by
  obtain ⟨p, c, _, hp, rfl, _⟩ := posixStore_eq_ok h
  rw [get_cons _ _ _ _ hp]
  by_cases hqp : q = p
  · simp [hqp]
  · simpa [hqp] using hq

/-- The log file after an append holds what it held followed by the data. -/
theorem posix_append_read {t t1 : Tree} {data c : String}
    (h : posix.appendFileSync t logFile data = .ok t1)
    (hc : posix.readFileSync t logFile = some c) :
    posix.readFileSync t1 logFile = some (c ++ data) := by
  have h1 : posixStore t logFile (fun c => c ++ data) = .ok t1 := h
  obtain ⟨p, c1, hr, hp, rfl, hcase⟩ := posixStore_eq_ok h1
  have hc2 : posixRead t logFile = some c := hc
  show posixRead _ logFile = _
  unfold posixRead at hc2 ⊢
  rw [hr] at hc2 ⊢
  change (match get t p with | some (.file c _) => some c | _ => none) = some c at hc2
  change (match get ((p, Entry.file c1 false) :: t) p with
    | some (.file c _) => some c | _ => none) = _
  rw [get_cons _ _ _ _ hp, if_pos rfl]
  rcases hcase with ⟨c0, hg, rfl⟩ | ⟨hg, rfl⟩
  · rw [hg] at hc2
    simp only [Option.some.injEq] at hc2
    rw [hc2]
  · rw [hg] at hc2
    cases hc2

/-- The log file after line 10 holds the data written. -/
theorem posix_write_read {t t1 : Tree} {data : String}
    (h : posix.writeFileSync t logFile data = .ok t1) :
    posix.readFileSync t1 logFile = some data := by
  have h1 : posixStore t logFile (fun _ => data) = .ok t1 := h
  obtain ⟨p, c1, hr, hp, rfl, hcase⟩ := posixStore_eq_ok h1
  show posixRead _ logFile = _
  unfold posixRead
  rw [hr]
  change (match get ((p, Entry.file c1 false) :: t) p with
    | some (.file c _) => some c | _ => none) = _
  rw [get_cons _ _ _ _ hp, if_pos rfl]
  rcases hcase with ⟨c0, _, rfl⟩ | ⟨_, rfl⟩ <;> rfl

/-- What the implementation says of a path depends on the entry it resolves
to. -/
theorem posix_obs_congr {t t1 : Tree} (s : String)
    (h : ∀ q, resolve s = some q → get t1 q = get t q) :
    posix.existsSync t1 s = posix.existsSync t s ∧
      posix.readFileSync t1 s = posix.readFileSync t s := by
  show ((resolve s).bind (get t1)).isSome = ((resolve s).bind (get t)).isSome ∧
    posixRead t1 s = posixRead t s
  unfold posixRead
  cases hr : resolve s with
  | none => exact ⟨rfl, rfl⟩
  | some q =>
    have := h q hr
    constructor
    · show (get t1 q).isSome = (get t q).isSome
      rw [this]
    · show (match get t1 q with | some (.file c _) => some c | _ => none)
        = (match get t q with | some (.file c _) => some c | _ => none)
      rw [this]

theorem get_of_ne_nil (t : Tree) {q : List String} (hq : q ≠ []) : get t q = t.lookup q := by
  simp [get, hq]

theorem lookup_eq_none_of_keys {l : Tree} {q : List String} (h : ∀ x ∈ l, x.1 ≠ q) :
    l.lookup q = none := by
  induction l with
  | nil => rfl
  | cons x xs ih =>
    have hx : (q == x.1) = false := by
      have := h x (List.mem_cons_self _ _)
      simpa using Ne.symm this
    rw [show x = (x.1, x.2) from rfl, List.lookup_cons, hx]
    exact ih fun y hy => h y (List.mem_cons_of_mem _ hy)

theorem lookup_filter_key (l : Tree) (keep : List String → Bool) {q : List String}
    (hq : keep q = true) : (l.filter fun x => keep x.1).lookup q = l.lookup q := by
  induction l with
  | nil => rfl
  | cons x xs ih =>
    by_cases hx : keep x.1 = true
    · rw [List.filter_cons_of_pos (by simpa using hx)]
      rw [show x = (x.1, x.2) from rfl, List.lookup_cons, List.lookup_cons, ih]
    · rw [List.filter_cons_of_neg (by simpa using hx), ih]
      have hne : (q == x.1) = false := by
        have : q ≠ x.1 := by
          rintro rfl
          exact hx hq
        simpa using this
      rw [show x = (x.1, x.2) from rfl, List.lookup_cons, hne]

theorem isPrefixOf_eq_false {a q : List String} (h : ¬ a <+: q) : a.isPrefixOf q = false := by
  rw [Bool.eq_false_iff]
  intro hc
  exact h (List.isPrefixOf_iff_prefix.1 hc)

theorem moved_sub_keys {t : Tree} {a b : List String} {x : List String × Entry}
    (hx : x ∈ (t.filter fun x => a.isPrefixOf x.1).map
      (fun x => (b ++ x.1.drop a.length, x.2))) : b <+: x.1 := by
  obtain ⟨y, _, rfl⟩ := List.mem_map.1 hx
  exact List.prefix_append _ _

/-- A rename leaves alone what lies neither at or below its source nor at or
below its destination. -/
theorem get_moved_frame (t : Tree) {a b q : List String} (ha : ¬ a <+: q)
    (hb : ¬ b <+: q) : get (moved t a b) q = get t q := by
  by_cases hq : q = []
  · subst hq
    simp [get]
  · rw [get_of_ne_nil _ hq, get_of_ne_nil _ hq]
    unfold moved
    rw [List.lookup_append, lookup_eq_none_of_keys]
    · exact lookup_filter_key t (fun k => !a.isPrefixOf k && !b.isPrefixOf k) (q := q)
        (by simp [isPrefixOf_eq_false ha, isPrefixOf_eq_false hb])
    · intro x hx hxq
      exact hb (hxq ▸ moved_sub_keys hx)

/-- After a rename nothing is left at the source. -/
theorem get_moved_src (t : Tree) {a b : List String} (ha : a ≠ []) (hb : ¬ b <+: a) :
    get (moved t a b) a = none := by
  rw [get_of_ne_nil _ ha]
  unfold moved
  rw [List.lookup_append, lookup_eq_none_of_keys, lookup_eq_none_of_keys]
  · rfl
  · intro x hx hxa
    have := (List.mem_filter.1 hx).2
    rw [hxa, List.isPrefixOf_iff_prefix.2 (List.prefix_refl a)] at this
    simp at this
  · intro x hx hxa
    exact hb (hxa ▸ moved_sub_keys hx)

theorem lookup_moved_sub (t : Tree) (a b : List String) :
    ((t.filter fun x => a.isPrefixOf x.1).map
      (fun x => (b ++ x.1.drop a.length, x.2))).lookup b = t.lookup a := by
  induction t with
  | nil => rfl
  | cons x xs ih =>
    by_cases hx : a <+: x.1
    · rw [List.filter_cons_of_pos (by simpa using hx), List.map_cons, List.lookup_cons,
        show x = (x.1, x.2) from rfl, List.lookup_cons, ih]
      obtain ⟨r, hr⟩ := hx
      by_cases hxa : a = x.1
      · have hr2 : r = [] := by
          have : a ++ r = a := hr.trans hxa.symm
          simpa using this
        simp [← hxa]
      · have hr2 : r ≠ [] := by
          rintro rfl
          exact hxa (by simpa using hr)
        have h1 : (a == x.1) = false := by simpa using hxa
        have h2 : (b == b ++ List.drop a.length x.1) = false := by
          rw [← hr]
          simpa using hr2
        simp only [h1, h2]
    · rw [List.filter_cons_of_neg (by simpa using hx), ih]
      have h1 : (a == x.1) = false := by
        have : a ≠ x.1 := by
          rintro rfl
          exact hx (List.prefix_refl _)
        simpa using this
      rw [show x = (x.1, x.2) from rfl, List.lookup_cons, h1]

/-- After a rename the destination holds what the source held. -/
theorem get_moved_dst (t : Tree) {a b : List String} (ha : a ≠ []) (hb : b ≠ [])
    (hsrc : get t a ≠ none) : get (moved t a b) b = get t a := by
  rw [get_of_ne_nil _ ha] at hsrc ⊢
  rw [get_of_ne_nil _ hb]
  unfold moved
  rw [List.lookup_append, lookup_moved_sub]
  cases hl : t.lookup a with
  | none => exact absurd hl hsrc
  | some e => rfl

/-- What a successful rename of the implementation did. -/
theorem posixRename_eq_ok {t t1 : Tree} {sa sb : String} (h : posixRename t sa sb = .ok t1) :
    ∃ a b, resolve sa = some a ∧ resolve sb = some b ∧ get t a ≠ none ∧ a ≠ [] ∧ b ≠ [] ∧
      ((a = b ∧ t1 = t) ∨ (a ≠ b ∧ ¬ a <+: b ∧ ¬ b <+: a ∧ t1 = moved t a b)) := by
  unfold posixRename at h
  cases hra : resolve sa with
  | none => simp [hra] at h
  | some a =>
    cases hrb : resolve sb with
    | none => simp [hra, hrb] at h
    | some b =>
      simp only [hra, hrb] at h
      cases hg : get t a with
      | none => simp [hg] at h
      | some ea =>
        simp only [hg] at h
        split at h
        · cases h
        · rename_i hnil
          have hab : a ≠ [] ∧ b ≠ [] := by
            constructor
            · intro hc; exact hnil (Or.inl hc)
            · intro hc; exact hnil (Or.inr hc)
          split at h
          · cases h
          · split at h
            · cases h
            · split at h
              · rename_i heq
                cases h
                exact ⟨a, b, rfl, rfl, by rw [hg]; simp, hab.1, hab.2, Or.inl ⟨heq, rfl⟩⟩
              · rename_i hne
                split at h
                · cases h
                · rename_i hpre
                  split at h
                  · cases h
                  · split at h
                    · cases h
                    · split at h
                      · cases h
                      · split at h
                        · cases h
                        · rename_i hbelow
                          cases h
                          refine ⟨a, b, rfl, rfl, by rw [hg]; simp, hab.1, hab.2,
                            Or.inr ⟨hne, ?_, ?_, rfl⟩⟩
                          · simpa using hpre
                          · intro hc
                            exact hbelow (Or.inl (by simpa using hc))

/-- A recursive `mkdir` of `p` leaves alone what is not a prefix of `p`. -/
theorem posixMkdir_frame {t t1 : Tree} {s : String} {p q : List String}
    (h : posixMkdir t s = .ok t1) (hp : resolve s = some p) (hq : ¬ q <+: p) :
    get t1 q = get t q := by
  obtain ⟨p1, hr, hget⟩ := posixMkdir_eq_ok h
  rw [hp] at hr
  cases hr
  rw [hget, get_mkdirp]
  have : ¬ (q ∈ p.inits ∧ (get t q).isNone = true) := by
    intro hc
    exact hq ((List.mem_inits q p).1 hc.1)
  rw [if_neg this]

/-- In the implementation an append to the log file changes nothing about a
path that does not resolve to the log file. -/
theorem posix_append_obs (s : String) (hs : resolve s ≠ some ["organize_log.txt"])
    {t t1 : Tree} {data : String} (h : posix.appendFileSync t logFile data = .ok t1) :
    posix.existsSync t1 s = posix.existsSync t s ∧
      posix.readFileSync t1 s = posix.readFileSync t s := by
  have h1 : posixStore t logFile (fun c => c ++ data) = .ok t1 := h
  apply posix_obs_congr
  intro q hq
  apply posixStore_logFile_frame h1
  rintro rfl
  exact hs hq

/-- In the implementation a recursive `mkdir` changes nothing about a path that
does not resolve to a prefix of the directory made. -/
theorem posix_mkdir_obs (sdir s : String) {p q : List String} (hp : resolve sdir = some p)
    (hq : resolve s = some q) (hnot : ¬ q <+: p) {t t1 : Tree}
    (h : posix.mkdirSync t sdir = .ok t1) :
    posix.existsSync t1 s = posix.existsSync t s ∧
      posix.readFileSync t1 s = posix.readFileSync t s := by
  apply posix_obs_congr
  intro q1 hq1
  rw [hq] at hq1
  cases hq1
  exact posixMkdir_frame h hp hnot

/-- In the implementation a rename between two paths that resolve differently
is a move: nothing is left at the source, and the destination holds what the
source held. -/
theorem posix_rename_moves {sa sb : String} {a b : List String} (ha : resolve sa = some a)
    (hb : resolve sb = some b) (hne : a ≠ b) {t t1 : Tree}
    (h : posix.renameSync t sa sb = .ok t1) :
    posix.existsSync t1 sa = false ∧ posix.existsSync t1 sb = true ∧
      posix.readFileSync t1 sb = posix.readFileSync t sa := by
  have h1 : posixRename t sa sb = .ok t1 := h
  obtain ⟨a1, b1, hra, hrb, hsrc, hanil, hbnil, hcase⟩ := posixRename_eq_ok h1
  rw [ha] at hra
  rw [hb] at hrb
  cases hra
  cases hrb
  rcases hcase with ⟨heq, _⟩ | ⟨_, _, hba, rfl⟩
  · exact absurd heq hne
  · have hs := get_moved_src t hanil hba
    have hd := get_moved_dst t hanil hbnil hsrc
    refine ⟨?_, ?_, ?_⟩
    · show ((resolve sa).bind (get (moved t a b))).isSome = false
      rw [ha]
      show (get (moved t a b) a).isSome = false
      rw [hs]
      rfl
    · show ((resolve sb).bind (get (moved t a b))).isSome = true
      rw [hb]
      show (get (moved t a b) b).isSome = true
      rw [hd]
      cases hg : get t a with
      | none => exact absurd hg hsrc
      | some e => rfl
    · show posixRead (moved t a b) sb = posixRead t sa
      unfold posixRead
      rw [ha, hb]
      show (match get (moved t a b) b with | some (.file c _) => some c | _ => none)
        = (match get t a with | some (.file c _) => some c | _ => none)
      rw [hd]

/-- In the implementation a recursive `mkdir` changes the content of no file. -/
theorem posix_mkdir_read {t t1 : Tree} {sd : String} (h : posix.mkdirSync t sd = .ok t1)
    (s : String) : posix.readFileSync t1 s = posix.readFileSync t s := by
  have h1 : posixMkdir t sd = .ok t1 := h
  obtain ⟨p, _, hget⟩ := posixMkdir_eq_ok h1
  show posixRead t1 s = posixRead t s
  unfold posixRead
  cases hr : resolve s with
  | none => rfl
  | some q =>
    show (match get t1 q with | some (.file c _) => some c | _ => none)
      = (match get t q with | some (.file c _) => some c | _ => none)
    rw [hget, get_mkdirp]
    by_cases hc : q ∈ p.inits ∧ (get t q).isNone = true
    · rw [if_pos hc]
      cases hg : get t q with
      | none => rfl
      | some e => simp [hg] at hc
    · rw [if_neg hc]

/-- In the implementation a recursive `mkdir` removes nothing. -/
theorem posix_mkdir_keeps {t t1 : Tree} {sd : String} (h : posix.mkdirSync t sd = .ok t1)
    {s : String} (hs : posix.existsSync t s = true) : posix.existsSync t1 s = true := by
  have h1 : posixMkdir t sd = .ok t1 := h
  have hs1 : ((resolve s).bind (get t)).isSome = true := hs
  show ((resolve s).bind (get t1)).isSome = true
  cases hr : resolve s with
  | none => simp [hr] at hs1
  | some q =>
    rw [hr] at hs1
    have hq : get t q ≠ none := by
      intro hc
      simp [hc] at hs1
    show (get t1 q).isSome = true
    rw [posixMkdir_keeps h1 hq]
    exact hs1

/-- In the implementation a write or an append removes nothing. -/
theorem posix_store_keeps {t t1 : Tree} {sd : String} {f : String → String}
    (h : posixStore t sd f = .ok t1) {s : String} (hs : posix.existsSync t s = true) :
    posix.existsSync t1 s = true := by
  have hs1 : ((resolve s).bind (get t)).isSome = true := hs
  show ((resolve s).bind (get t1)).isSome = true
  cases hr : resolve s with
  | none => simp [hr] at hs1
  | some q =>
    rw [hr] at hs1
    have hq : get t q ≠ none := by
      intro hc
      simp [hc] at hs1
    show (get t1 q).isSome = true
    cases hg : get t1 q with
    | none => exact absurd hg (posixStore_keeps h hq)
    | some e => rfl

/-- In the implementation a rename changes nothing about a path that resolves
neither to the source or below it nor to the destination or below it. -/
theorem posix_rename_frame {sa sb s : String} {a b q : List String}
    (ha : resolve sa = some a) (hb : resolve sb = some b) (hq : resolve s = some q)
    (hqa : ¬ a <+: q) (hqb : ¬ b <+: q) {t t1 : Tree}
    (h : posix.renameSync t sa sb = .ok t1) :
    posix.existsSync t1 s = posix.existsSync t s ∧
      posix.readFileSync t1 s = posix.readFileSync t s := by
  have h1 : posixRename t sa sb = .ok t1 := h
  obtain ⟨a1, b1, hra, hrb, _, _, _, hcase⟩ := posixRename_eq_ok h1
  rw [ha] at hra
  rw [hb] at hrb
  cases hra
  cases hrb
  apply posix_obs_congr
  intro q1 hq1
  rw [hq] at hq1
  cases hq1
  rcases hcase with ⟨_, rfl⟩ | ⟨_, _, _, rfl⟩
  · rfl
  · exact get_moved_frame t hqa hqb

theorem noNewline_quoted {code s : String} (hc : NoNewline code) (hs : NoNewline s) :
    NoNewline (code ++ s ++ "'") :=
  noNewline_append.2 ⟨noNewline_append.2 ⟨hc, hs⟩, by decide⟩

/-- The errors of the implementation's `mkdirSync` hold no newline when the path
holds none. -/
theorem posixMkdir_error_noNewline {t : Tree} {s e : String} (hs : NoNewline s)
    (h : posixMkdir t s = .error e) : NoNewline e := by
  unfold posixMkdir at h
  split at h
  · cases h
    exact noNewline_quoted (by decide) hs
  · split at h
    · cases h
      exact noNewline_quoted (by decide) hs
    · split at h
      · cases h
        exact noNewline_quoted (by decide) hs
      · split at h
        · cases h
        · split at h
          · cases h
            exact noNewline_quoted (by decide) hs
          · cases h

/-- The errors of the implementation's write and append hold no newline when
the path holds none. -/
theorem posixStore_error_noNewline {t : Tree} {s e : String} {f : String → String}
    (hs : NoNewline s) (h : posixStore t s f = .error e) : NoNewline e := by
  unfold posixStore at h
  split at h
  · cases h
    exact noNewline_quoted (by decide) hs
  · split at h
    · cases h
      exact noNewline_quoted (by decide) hs
    · split at h
      · cases h
        exact noNewline_quoted (by decide) hs
      · cases h
    · split at h
      · cases h
        exact noNewline_quoted (by decide) hs
      · split at h
        · cases h
          exact noNewline_quoted (by decide) hs
        · split at h
          · cases h
            exact noNewline_quoted (by decide) hs
          · cases h

theorem noNewline_renameArgs {code sa sb : String} (hc : NoNewline code) (ha : NoNewline sa)
    (hb : NoNewline sb) : NoNewline (code ++ renameArgs sa sb) := by
  unfold renameArgs
  exact noNewline_append.2 ⟨hc, noNewline_append.2 ⟨noNewline_append.2
    ⟨noNewline_append.2 ⟨noNewline_append.2 ⟨by decide, ha⟩, by decide⟩, hb⟩, by decide⟩⟩

theorem posix_append_keeps {t t1 : Tree} {data s : String}
    (h : posix.appendFileSync t logFile data = .ok t1) (hs : posix.existsSync t s = true) :
    posix.existsSync t1 s = true := by
  have h1 : posixStore t logFile (fun c => c ++ data) = .ok t1 := h
  exact posix_store_keeps h1 hs

theorem posix_write_keeps {t t1 : Tree} {data s : String}
    (h : posix.writeFileSync t logFile data = .ok t1) (hs : posix.existsSync t s = true) :
    posix.existsSync t1 s = true := by
  have h1 : posixStore t logFile (fun _ => data) = .ok t1 := h
  exact posix_store_keeps h1 hs

/-- The errors of the implementation's `renameSync` hold no newline when the
two paths hold none. -/
theorem posixRename_error_noNewline {t : Tree} {sa sb e : String} (ha : NoNewline sa)
    (hb : NoNewline sb) (h : posixRename t sa sb = .error e) : NoNewline e := by
  unfold posixRename at h
  repeat' split at h
  all_goals first
    | (cases h; exact noNewline_renameArgs (by decide) ha hb)
    | cases h

/-- In the implementation the errors a rule can catch hold no newline when the
paths of the rule hold none. -/
theorem posix_raised_noNewline {m : MoveRule} {e : String} (hf : NoNewline m.from)
    (ht : NoNewline m.to) (hd : NoNewline (posix.dirname m.to)) (h : Raised posix m e) :
    NoNewline e := by
  obtain ⟨s, h1 | h1 | h1⟩ := h
  · exact posixMkdir_error_noNewline hd h1
  · exact posixRename_error_noNewline hf ht h1
  · have h2 : posixStore s logFile
        (fun c => c ++ ("Moved: " ++ m.from ++ " -> " ++ m.to ++ "\n")) = .error e := h1
    exact posixStore_error_noNewline (s := logFile) (by decide) h2

/-! ## The claims -/

/-- C1, as amended: take a rule whose source exists and for which the directory
step, the rename and the append of the line "Moved: <from> -> <to>" to the log
file all succeed. Then the rule ends normally with exactly that line printed
and appended, in the filesystem the append returned. If moreover renaming
`from` to `to` is a move (it takes the source away and puts its content at the
destination, which a rename onto the same file does not), the recursive `mkdir`
leaves the content of the source alone, and an append to the log file touches
neither path, then afterwards the source does not exist and the destination
exists and holds what the source held before. -/
theorem c1_moved_when_rename_succeeds {σ : Type} (F : NodeFs σ) (w : World σ) (m : MoveRule)
    (fs1 fs2 fs3 : σ) (hex : F.existsSync w.fs m.from = true)
    (hdir : ensureTargetDir F w.fs m = .ok fs1)
    (hren : F.renameSync fs1 m.from m.to = .ok fs2)
    (happ : F.appendFileSync fs2 logFile ("Moved: " ++ m.from ++ " -> " ++ m.to ++ "\n")
      = .ok fs3)
    (hmove : ∀ s s', F.renameSync s m.from m.to = .ok s' →
      F.existsSync s' m.from = false ∧ F.existsSync s' m.to = true ∧
        F.readFileSync s' m.to = F.readFileSync s m.from)
    (hmk : ∀ s s', F.mkdirSync s (F.dirname m.to) = .ok s' →
      F.readFileSync s' m.from = F.readFileSync s m.from)
    (hlog : ∀ s s' t, F.appendFileSync s logFile t = .ok s' →
      F.existsSync s' m.from = F.existsSync s m.from ∧
        F.existsSync s' m.to = F.existsSync s m.to ∧
        F.readFileSync s' m.to = F.readFileSync s m.to) :
    moveFile F w m = .ok
      { fs := fs3, stdout := w.stdout ++ ["Moved: " ++ m.from ++ " -> " ++ m.to],
        logWrites := w.logWrites ++ ["Moved: " ++ m.from ++ " -> " ++ m.to ++ "\n"] } ∧
    F.existsSync fs3 m.from = false ∧ F.existsSync fs3 m.to = true ∧
    F.readFileSync fs3 m.to = F.readFileSync w.fs m.from := by
  obtain ⟨h1, h2, h3⟩ := hmove _ _ hren
  obtain ⟨l1, l2, l3⟩ := hlog _ _ _ happ
  have hsrc : F.readFileSync fs1 m.from = F.readFileSync w.fs m.from := by
    rcases existsSync_cases F w.fs (F.dirname m.to) with hd | hd
    · rw [ensureTargetDir_of_exists F hd] at hdir
      cases hdir
      rfl
    · rw [ensureTargetDir_of_missing F hd] at hdir
      exact hmk _ _ hdir
  refine ⟨?_, by rw [l1, h1], by rw [l2, h2], by rw [l3, h3, hsrc]⟩
  have he : moveError F w.fs m = none := by
    simp [moveError, hdir, hren]
  have hst : stateAtRename F w.fs m = fs1 := by
    simp [stateAtRename, hdir]
  rw [moveFile_of_renamed F hex he (by rw [hst]; exact hren),
    log_of_ok F (w := { w with fs := fs2 }) happ]

/-- C1 at the rule `{ from: 'a.txt', to: 'out/a.txt' }` with `a.txt` holding
"hi": afterwards `a.txt` is gone and `out/a.txt` holds "hi". -/
theorem c1_moved_when_rename_succeeds_witness :
    (posix.existsSync (moveFile posix (started treeNoteStarted) ruleNote).world.fs "a.txt"
      = false ∧
    posix.existsSync (moveFile posix (started treeNoteStarted) ruleNote).world.fs "out/a.txt"
      = true ∧
    posix.readFileSync (moveFile posix (started treeNoteStarted) ruleNote).world.fs "out/a.txt"
      = posix.readFileSync (started treeNoteStarted).fs "a.txt") ∧
    posix.readFileSync (started treeNoteStarted).fs "a.txt" = some "hi" ∧
    (moveFile posix (started treeNoteStarted) ruleNote).world.stdout
      = ["Moved: a.txt -> out/a.txt"] :=
  ⟨(c1_moved_when_rename_succeeds posix (started treeNoteStarted) ruleNote
      (stateAtRename posix (started treeNoteStarted).fs ruleNote) _
      (moveFile posix (started treeNoteStarted) ruleNote).world.fs
      (by decide) rfl rfl rfl
      (fun _ _ h => posix_rename_moves (a := ["a.txt"]) (b := ["out", "a.txt"])
        (by decide) (by decide) (by decide) h)
      (fun _ _ h => (posix_mkdir_obs "out" "a.txt" (p := ["out"]) (q := ["a.txt"])
        (by decide) (by decide) (by decide) h).2)
      (fun _ _ _ h => ⟨(posix_append_obs "a.txt" (by decide) h).1,
        (posix_append_obs "out/a.txt" (by decide) h).1,
        (posix_append_obs "out/a.txt" (by decide) h).2⟩)).2,
    by decide, by decide⟩

/-- C1 fails as stated: the source `a.txt` exists and the parent of the
destination `out` exists, yet the rename raises an error because `out` is a
directory; `a.txt` is still there and the line printed is an error line. -/
theorem c1_counterexample :
    posix.existsSync (started treeNoteOut).fs ruleOntoDir.from = true ∧
      posix.existsSync (started treeNoteOut).fs (posix.dirname ruleOntoDir.to) = true ∧
      (moveFile posix (started treeNoteOut) ruleOntoDir).isOk = true ∧
      posix.readFileSync (moveFile posix (started treeNoteOut) ruleOntoDir).world.fs
        ruleOntoDir.from = some "hi" ∧
      (moveFile posix (started treeNoteOut) ruleOntoDir).world.stdout
        = ["Error moving a.txt: EISDIR: illegal operation on a directory, " ++
            "rename 'a.txt' -> 'out'"] := by
  decide

/-- C2, as amended: a move failure is caught. If the rules before `m` have been
processed, the directory creation or the rename of `m` raises the error `e`, and
the line "Error moving <from>: e" is appended to the log file, then `m` ends
normally with that one line, and the loop goes on with the rules after `m` from
the state `m` left. From there the run either ends normally, with "Organization
complete." as its last line, or it is aborted by an append to the log file that
throws: the exception is the one raised for the line printed last. -/
theorem c2_failed_move_is_caught {σ : Type} (F : NodeFs σ) (w w1 : World σ)
    (pre post : List MoveRule) (m : MoveRule) (e : String) (fs2 : σ)
    (hpre : forEach (moveFile F) w pre = .ok w1)
    (hex : F.existsSync w1.fs m.from = true) (he : moveError F w1.fs m = some e)
    (happ : F.appendFileSync (stateAtRename F w1.fs m) logFile
      ("Error moving " ++ m.from ++ ": " ++ e ++ "\n") = .ok fs2) :
    moveFile F w1 m = .ok
      { fs := fs2, stdout := w1.stdout ++ ["Error moving " ++ m.from ++ ": " ++ e],
        logWrites := w1.logWrites ++ ["Error moving " ++ m.from ++ ": " ++ e ++ "\n"] } ∧
    moveAll F w (pre ++ m :: post) = moveAll F
      { fs := fs2, stdout := w1.stdout ++ ["Error moving " ++ m.from ++ ": " ++ e],
        logWrites := w1.logWrites ++ ["Error moving " ++ m.from ++ ": " ++ e ++ "\n"] } post ∧
    (∀ w4, moveAll F w (pre ++ m :: post) = .ok w4 →
      w4.stdout.getLast? = some "Organization complete.") ∧
    (∀ wE e1, moveAll F w (pre ++ m :: post) = .threw wE e1 →
      ∃ line, wE.stdout.getLast? = some line ∧
        F.appendFileSync wE.fs logFile (line ++ "\n") = .error e1) := by
  have hm : moveFile F w1 m = .ok
      { fs := fs2, stdout := w1.stdout ++ ["Error moving " ++ m.from ++ ": " ++ e],
        logWrites := w1.logWrites ++ ["Error moving " ++ m.from ++ ": " ++ e ++ "\n"] } := by
    rw [moveFile_of_error F hex he]
    exact log_of_ok F (w := { w1 with fs := stateAtRename F w1.fs m }) happ
  refine ⟨hm, ?_, ?_, threwByLog_moveAll F _ w⟩
  · simp only [moveAll]
    rw [forEach_append_of_ok hpre, forEach_cons_of_ok hm]
  · intro w4 h4
    unfold moveAll at h4
    cases hf : forEach (moveFile F) w (pre ++ m :: post) with
    | threw wE e1 => simp [hf] at h4
    | ok w3 =>
      simp only [hf] at h4
      obtain ⟨fs3, _, rfl⟩ := log_eq_ok F h4
      simp [completeMsg]

/-- C2 with `a.txt` moved first, then `a` moved into itself (an error), then a
missing file skipped: the error is caught and the run ends normally. -/
theorem c2_failed_move_is_caught_witness :
    (moveAll posix (started treeNoteDirA) ([ruleNote] ++ ruleIntoItself :: [ruleMissing])).isOk
      = true ∧
    (moveAll posix (started treeNoteDirA)
        ([ruleNote] ++ ruleIntoItself :: [ruleMissing])).world.stdout
      = ["Moved: a.txt -> out/a.txt",
         "Error moving a: EINVAL: invalid argument, rename 'a' -> 'a/b/c'",
         "Skipped (not found): missing.txt",
         "Organization complete."] ∧
    (∀ w4, moveAll posix (started treeNoteDirA)
        ([ruleNote] ++ ruleIntoItself :: [ruleMissing]) = .ok w4 →
      w4.stdout.getLast? = some "Organization complete.") :=
  ⟨by decide, by decide,
    (c2_failed_move_is_caught posix (started treeNoteDirA) _ [ruleNote] [ruleMissing]
      ruleIntoItself "EINVAL: invalid argument, rename 'a' -> 'a/b/c'" _
      rfl (by decide) (by decide) rfl).2.2.1⟩

/-- C2 fails as stated: the rename of the first rule raises an error, which is
caught; the second rule moves the read-only file `ro.txt` onto the log file, the
appends of its "Moved" and "Error moving" lines both throw, and the run ends with
an uncaught error, without "Organization complete.". -/
theorem c2_counterexample :
    moveError posix (started (withLog treeDirAReadOnly)).fs ruleIntoItself
      = some "EINVAL: invalid argument, rename 'a' -> 'a/b/c'" ∧
    (run posix treeDirAReadOnly [] [ruleIntoItself, ruleOverLog]).isOk = false ∧
    (run posix treeDirAReadOnly [] [ruleIntoItself, ruleOverLog]).world.stdout
      = ["Error moving a: EINVAL: invalid argument, rename 'a' -> 'a/b/c'",
         "Moved: ro.txt -> organize_log.txt",
         "Error moving ro.txt: EACCES: permission denied, open 'organize_log.txt'"] := by
  decide

/-- C3, as amended: a rule whose source exists, whose directory creation or
rename raises the error `e`, and whose line "Error moving <from>: e" is appended
to the log file, ends normally with exactly that line printed and appended (it
is neither the "Moved" nor the "Skipped" line of the rule), in the filesystem
the append returned. Every observation `obs` of the filesystem that the
recursive `mkdir` of the destination directory and an append to the log file
leave unchanged, such as the existence and content of a source that is not the
log file and does not lie above the destination, is as it was before the rule. -/
theorem c3_failed_move_keeps_source {σ α : Type} (F : NodeFs σ) (w : World σ) (m : MoveRule)
    (e : String) (fs2 : σ) (obs : σ → α)
    (hex : F.existsSync w.fs m.from = true) (he : moveError F w.fs m = some e)
    (happ : F.appendFileSync (stateAtRename F w.fs m) logFile
      ("Error moving " ++ m.from ++ ": " ++ e ++ "\n") = .ok fs2)
    (hmk : ∀ s s', F.mkdirSync s (F.dirname m.to) = .ok s' → obs s' = obs s)
    (hlog : ∀ s s' t, F.appendFileSync s logFile t = .ok s' → obs s' = obs s) :
    moveFile F w m = .ok
      { fs := fs2, stdout := w.stdout ++ ["Error moving " ++ m.from ++ ": " ++ e],
        logWrites := w.logWrites ++ ["Error moving " ++ m.from ++ ": " ++ e ++ "\n"] } ∧
    obs fs2 = obs w.fs ∧
    "Error moving " ++ m.from ++ ": " ++ e ≠ "Moved: " ++ m.from ++ " -> " ++ m.to ∧
    "Error moving " ++ m.from ++ ": " ++ e ≠ "Skipped (not found): " ++ m.from := by
  refine ⟨?_, ?_, ?_, ?_⟩
  · rw [moveFile_of_error F hex he]
    exact log_of_ok F (w := { w with fs := stateAtRename F w.fs m }) happ
  · rw [hlog _ _ _ happ]
    rcases stateAtRename_cases F w.fs m with h1 | ⟨_, h1⟩
    · rw [h1]
    · exact hmk _ _ h1
  · apply ne_of_take_ne 2
    rw [error_take, moved_take]
    decide
  · apply ne_of_take_ne 2
    rw [error_take, skipped_take]
    decide

/-- C3 at the rule `{ from: 'a.txt', to: 'out' }` where `out` is a directory:
one error line, and `a.txt` is there with its content as before. -/
theorem c3_failed_move_keeps_source_witness :
    (moveFile posix (started treeNoteOut) ruleOntoDir).world.stdout
      = ["Error moving a.txt: EISDIR: illegal operation on a directory, " ++
          "rename 'a.txt' -> 'out'"] ∧
    (posix.existsSync (moveFile posix (started treeNoteOut) ruleOntoDir).world.fs "a.txt",
      posix.readFileSync (moveFile posix (started treeNoteOut) ruleOntoDir).world.fs "a.txt")
      = (posix.existsSync (started treeNoteOut).fs "a.txt",
          posix.readFileSync (started treeNoteOut).fs "a.txt") :=
  ⟨by decide,
    (c3_failed_move_keeps_source posix (started treeNoteOut) ruleOntoDir
      "EISDIR: illegal operation on a directory, rename 'a.txt' -> 'out'"
      (moveFile posix (started treeNoteOut) ruleOntoDir).world.fs
      (fun t => (posix.existsSync t "a.txt", posix.readFileSync t "a.txt"))
      (by decide) (by decide) rfl
      (fun _ _ h => Prod.ext
        (posix_mkdir_obs "." "a.txt" (p := []) (q := ["a.txt"]) (by decide) (by decide)
          (by decide) h).1
        (posix_mkdir_obs "." "a.txt" (p := []) (q := ["a.txt"]) (by decide) (by decide)
          (by decide) h).2)
      (fun _ _ _ h => Prod.ext (posix_append_obs "a.txt" (by decide) h).1
        (posix_append_obs "a.txt" (by decide) h).2)).2.1⟩

/-- C3 fails as stated when the source is the log file: the rename of
`organize_log.txt` onto the directory `logs` raises an error, and the error
line is then appended to `organize_log.txt`, whose content has changed. -/
theorem c3_counterexample :
    posix.existsSync (started treeLogs).fs ruleLogOntoDir.from = true ∧
      moveError posix (started treeLogs).fs ruleLogOntoDir
        = some "EISDIR: illegal operation on a directory, rename 'organize_log.txt' -> 'logs'" ∧
      posix.readFileSync (started treeLogs).fs ruleLogOntoDir.from
        = some "Starting organization...\n" ∧
      posix.readFileSync (moveFile posix (started treeLogs) ruleLogOntoDir).world.fs
          ruleLogOntoDir.from
        = some ("Starting organization...\n" ++
            "Error moving organize_log.txt: EISDIR: illegal operation on a directory, " ++
            "rename 'organize_log.txt' -> 'logs'\n") := by
  decide

/-- C10, as amended: a rule whose source exists, whose directory creation or
rename raises the error `e`, and whose line "Error moving <from>: e" is appended
to the log file, leaves the filesystem `fs2` that this append returned. The
append was made in the filesystem the rule started in, or, when the destination
directory was missing, its recursive `mkdir` succeeded and the rename then
failed, in the filesystem that `mkdir` returned. No rename took effect; apart
from that one `mkdir`, everything an append to the log file leaves unchanged is
as it was. -/
theorem c10_failed_move_frame {σ : Type} (F : NodeFs σ) (w : World σ) (m : MoveRule)
    (e : String) (fs2 : σ)
    (hex : F.existsSync w.fs m.from = true) (he : moveError F w.fs m = some e)
    (happ : F.appendFileSync (stateAtRename F w.fs m) logFile
      ("Error moving " ++ m.from ++ ": " ++ e ++ "\n") = .ok fs2) :
    moveFile F w m = .ok
      { fs := fs2, stdout := w.stdout ++ ["Error moving " ++ m.from ++ ": " ++ e],
        logWrites := w.logWrites ++ ["Error moving " ++ m.from ++ ": " ++ e ++ "\n"] } ∧
    (stateAtRename F w.fs m = w.fs ∨
      (F.existsSync w.fs (F.dirname m.to) = false ∧
        F.mkdirSync w.fs (F.dirname m.to) = .ok (stateAtRename F w.fs m) ∧
        F.renameSync (stateAtRename F w.fs m) m.from m.to = .error e)) ∧
    (∀ (α : Type) (obs : σ → α),
      (∀ s s' t, F.appendFileSync s logFile t = .ok s' → obs s' = obs s) →
      obs fs2 = obs (stateAtRename F w.fs m)) := by
  refine ⟨?_, ?_, fun α obs hobs => hobs _ _ _ happ⟩
  · rw [moveFile_of_error F hex he]
    exact log_of_ok F (w := { w with fs := stateAtRename F w.fs m }) happ
  · rcases stateAtRename_cases F w.fs m with h1 | ⟨hmiss, h1⟩
    · exact Or.inl h1
    · refine Or.inr ⟨hmiss, h1, ?_⟩
      have h2 : ensureTargetDir F w.fs m = .ok (stateAtRename F w.fs m) := by
        rw [ensureTargetDir_of_missing F hmiss]
        exact h1
      unfold moveError at he
      rw [h2] at he
      cases hr : F.renameSync (stateAtRename F w.fs m) m.from m.to with
      | error e2 =>
        simp only [hr, Option.some.injEq] at he
        rw [he]
      | ok fs3 => simp [hr] at he

/-- C10 at the rule `{ from: 'a', to: 'a/b/c' }` where `a` is a directory: the
directory `a/b` is created, then the rename fails; `a/b` is there afterwards. -/
theorem c10_failed_move_frame_witness :
    (posix.existsSync (started treeDirA).fs (posix.dirname ruleIntoItself.to) = false ∧
      posix.mkdirSync (started treeDirA).fs (posix.dirname ruleIntoItself.to)
        = .ok (stateAtRename posix (started treeDirA).fs ruleIntoItself) ∧
      posix.renameSync (stateAtRename posix (started treeDirA).fs ruleIntoItself)
          ruleIntoItself.from ruleIntoItself.to
        = .error "EINVAL: invalid argument, rename 'a' -> 'a/b/c'") ∧
    posix.existsSync (moveFile posix (started treeDirA) ruleIntoItself).world.fs "a/b"
      = posix.existsSync (stateAtRename posix (started treeDirA).fs ruleIntoItself) "a/b" :=
  ⟨((c10_failed_move_frame posix (started treeDirA) ruleIntoItself
      "EINVAL: invalid argument, rename 'a' -> 'a/b/c'"
      (moveFile posix (started treeDirA) ruleIntoItself).world.fs
      (by decide) (by decide) rfl).2.1).resolve_left (by decide),
    (c10_failed_move_frame posix (started treeDirA) ruleIntoItself
      "EINVAL: invalid argument, rename 'a' -> 'a/b/c'"
      (moveFile posix (started treeDirA) ruleIntoItself).world.fs
      (by decide) (by decide) rfl).2.2 _ (fun t => posix.existsSync t "a/b")
      (fun _ _ _ h => (posix_append_obs "a/b" (by decide) h).1)⟩

/-- C10 fails as stated: the failed move of `a` into `a/b/c` also changes the
content of a file, the log file, which gains the error line. -/
theorem c10_counterexample :
    posix.existsSync (started treeDirA).fs ruleIntoItself.from = true ∧
      moveError posix (started treeDirA).fs ruleIntoItself
        = some "EINVAL: invalid argument, rename 'a' -> 'a/b/c'" ∧
      posix.readFileSync (started treeDirA).fs "organize_log.txt"
        = some "Starting organization...\n" ∧
      posix.readFileSync (moveFile posix (started treeDirA) ruleIntoItself).world.fs
          "organize_log.txt"
        = some ("Starting organization...\n" ++
            "Error moving a: EINVAL: invalid argument, rename 'a' -> 'a/b/c'\n") ∧
      posix.existsSync (started treeDirA).fs "a/b" = false ∧
      posix.existsSync (moveFile posix (started treeDirA) ruleIntoItself).world.fs "a/b"
        = true := by
  decide

/-- C4: a rule whose source does not exist prints exactly one line, "Skipped
(not found): <from>", and makes one call, the append of that line to the log
file: no directory is created and nothing is renamed. If the append succeeds the
rule ends normally in the filesystem the append returned; if it throws, the
filesystem is the one the rule started in. Either way everything that a
successful append to the log file leaves unchanged (the existence and content
of the other paths) is as it was before the rule. -/
theorem c4_missing_source_is_skipped {σ : Type} (F : NodeFs σ) (w : World σ) (m : MoveRule)
    (h : F.existsSync w.fs m.from = false) :
    (moveFile F w m).world.stdout = w.stdout ++ ["Skipped (not found): " ++ m.from] ∧
    (∀ fs1, F.appendFileSync w.fs logFile ("Skipped (not found): " ++ m.from ++ "\n") = .ok fs1 →
      moveFile F w m = .ok
        { fs := fs1, stdout := w.stdout ++ ["Skipped (not found): " ++ m.from],
          logWrites := w.logWrites ++ ["Skipped (not found): " ++ m.from ++ "\n"] }) ∧
    (∀ e, F.appendFileSync w.fs logFile ("Skipped (not found): " ++ m.from ++ "\n") = .error e →
      moveFile F w m = .threw
        { fs := w.fs, stdout := w.stdout ++ ["Skipped (not found): " ++ m.from],
          logWrites := w.logWrites } e) ∧
    (∀ (α : Type) (obs : σ → α),
      (∀ s s' t, F.appendFileSync s logFile t = .ok s' → obs s' = obs s) →
      obs (moveFile F w m).world.fs = obs w.fs) := by
  rw [moveFile_of_missing F h]
  refine ⟨?_, fun fs1 h1 => log_of_ok F h1, fun e h1 => log_of_error F h1, ?_⟩
  · rcases log_cases F w ("Skipped (not found): " ++ m.from) with ⟨fs1, _, hl⟩ | ⟨e, _, hl⟩ <;>
      rw [hl] <;> rfl
  · intro α obs hobs
    rcases log_cases F w ("Skipped (not found): " ++ m.from) with ⟨fs1, ha, hl⟩ | ⟨e, _, hl⟩
    · rw [hl]
      exact hobs _ _ _ ha
    · rw [hl]
      rfl

/-- C4 at the rule `{ from: 'missing.txt', to: 'out/missing.txt' }`: one line is
printed, and `a.txt` is there with its content as before. -/
theorem c4_missing_source_is_skipped_witness :
    (moveFile posix (started treeNoteStarted) ruleMissing).world.stdout
      = (started treeNoteStarted).stdout ++ ["Skipped (not found): " ++ ruleMissing.from] ∧
    (posix.existsSync (moveFile posix (started treeNoteStarted) ruleMissing).world.fs "a.txt",
      posix.readFileSync (moveFile posix (started treeNoteStarted) ruleMissing).world.fs "a.txt")
      = (posix.existsSync (started treeNoteStarted).fs "a.txt",
          posix.readFileSync (started treeNoteStarted).fs "a.txt") :=
  ⟨(c4_missing_source_is_skipped posix (started treeNoteStarted) ruleMissing (by decide)).1,
    (c4_missing_source_is_skipped posix (started treeNoteStarted) ruleMissing
      (by decide)).2.2.2 _ (fun t => (posix.existsSync t "a.txt", posix.readFileSync t "a.txt"))
      (fun _ _ _ h => Prod.ext (posix_append_obs "a.txt" (by decide) h).1
        (posix_append_obs "a.txt" (by decide) h).2)⟩

/-- C5, as amended: take a run that ends normally, where a write to the log
file makes it hold the data, an append makes it hold its former content followed
by the data, and neither a recursive `mkdir` nor the rename of a rule changes
what the log file holds (no rule moves or replaces the log file); and where no
directory name, no path of a rule and no error a rule catches holds a newline.
Whatever the log file held before, it holds afterwards exactly: the start marker
line; then the "Created directory" lines, in the order of the directories; then
one Moved, Skipped or Error line per rule, in the order of the rules; then the
line "Organization complete.". Each of these is a single line, none of the lines
after the first is the start marker and none before the last is the completion
marker. -/
theorem c5_log_file_layout {σ : Type} (F : NodeFs σ) (fs0 : σ) (ds : List String)
    (ms : List MoveRule) (w : World σ) (hrun : run F fs0 ds ms = .ok w)
    (hW : ∀ s s' t, F.writeFileSync s logFile t = .ok s' → F.readFileSync s' logFile = some t)
    (hA : ∀ s s' t c, F.appendFileSync s logFile t = .ok s' →
      F.readFileSync s logFile = some c → F.readFileSync s' logFile = some (c ++ t))
    (hM : ∀ s s' p, F.mkdirSync s p = .ok s' →
      F.readFileSync s' logFile = F.readFileSync s logFile)
    (hR : ∀ m ∈ ms, ∀ s s', F.renameSync s m.from m.to = .ok s' →
      F.readFileSync s' logFile = F.readFileSync s logFile)
    (hds : ∀ d ∈ ds, NoNewline d) (hms : ∀ m ∈ ms, NoNewline m.from ∧ NoNewline m.to)
    (hE : ∀ m ∈ ms, ∀ e, Raised F m e → NoNewline e) :
    ∃ created lines, List.Sublist created ds ∧ List.Forall₂ IsOutcome ms lines ∧
      F.readFileSync w.fs logFile = some ("Starting organization...\n" ++
        fileText (created.map (fun d => "Created directory: " ++ d) ++ lines ++
          ["Organization complete."])) ∧
      (∀ l ∈ created.map (fun d => "Created directory: " ++ d) ++ lines ++
          ["Organization complete."], NoNewline l ∧ l ≠ "Starting organization...") ∧
      (∀ l ∈ created.map (fun d => "Created directory: " ++ d) ++ lines,
        l ≠ "Organization complete.") := by
  have hJ : StepInv F ms (fun s lw => F.readFileSync s logFile = some (joinAll lw)) :=
    { mkdir := fun s s' p lw h hs => by rw [hM s s' p h]; exact hs
      rename := fun m hm s s' lw h hs => by rw [hR m hm s s' h]; exact hs
      append := fun s s' t lw h hs => by
        rw [hA s s' t _ h hs, joinAll_append]
        simp [joinAll] }
  have hread := run_ok_inv F hJ hrun (fun fs1 h1 => by
    rw [hW _ _ _ h1]
    simp [joinAll])
  obtain ⟨fs1, w1, w2, _, hd, hmv, hl⟩ := run_eq_ok F hrun
  obtain ⟨created, hsub, _, hw1⟩ := forEach_createDir_ok_writes F ds hd
  obtain ⟨lines, hlines, hw2⟩ := forEach_moveFile_ok_writes F ms hmv
  obtain ⟨fs3, _, rfl⟩ := log_eq_ok F hl
  obtain ⟨hout, hfrom⟩ := forall₂_isOutcome F hlines
  have hwrites : w2.logWrites ++ ["Organization complete." ++ "\n"]
      = startMarker :: (created.map (fun d => "Created directory: " ++ d) ++ lines ++
          ["Organization complete."]).map (fun l => l ++ "\n") := by
    rw [hw2, hw1]
    simp [started, List.map_map, Function.comp_def]
  refine ⟨created, lines, hsub, hout, ?_, ?_, ?_⟩
  · rw [hread]
    show some (joinAll (w2.logWrites ++ ["Organization complete." ++ "\n"])) = _
    rw [hwrites]
    show some (startMarker ++ joinAll _) = _
    rw [joinAll_lines]
    rfl
  · intro l hl
    rcases List.mem_append.1 hl with hl1 | hl1
    · rcases List.mem_append.1 hl1 with hl2 | hl2
      · obtain ⟨d, hdm, rfl⟩ := List.mem_map.1 hl2
        exact ⟨noNewline_created (hds d (hsub.subset hdm)), created_ne_start d⟩
      · obtain ⟨m, hm, hml⟩ := hfrom l hl2
        refine ⟨?_, outcome_ne_start (isOutcome_of F hml)⟩
        rcases hml with rfl | rfl | ⟨e, he, rfl⟩
        · exact noNewline_moved (hms m hm).1 (hms m hm).2
        · exact noNewline_skipped (hms m hm).1
        · exact noNewline_error (hms m hm).1 (hE m hm e he)
    · rw [List.mem_singleton.1 hl1]
      exact ⟨by decide, by decide⟩
  · intro l hl
    rcases List.mem_append.1 hl with hl2 | hl2
    · obtain ⟨d, _, rfl⟩ := List.mem_map.1 hl2
      exact created_ne_complete d
    · obtain ⟨m, _, hml⟩ := hfrom l hl2
      exact outcome_ne_complete (isOutcome_of F hml)

/-- C5 on a second run: started in the state a first run left, the run leaves a
log file with a single start marker. -/
theorem c5_log_file_layout_witness :
    ∃ created lines, List.Sublist created ["out"] ∧
      List.Forall₂ IsOutcome [ruleNote] lines ∧
      posix.readFileSync (run posix treeAfterFirstRun ["out"] [ruleNote]).world.fs logFile
        = some ("Starting organization...\n" ++
          fileText (created.map (fun d => "Created directory: " ++ d) ++ lines ++
            ["Organization complete."])) ∧
      (∀ l ∈ created.map (fun d => "Created directory: " ++ d) ++ lines ++
          ["Organization complete."], NoNewline l ∧ l ≠ "Starting organization...") ∧
      (∀ l ∈ created.map (fun d => "Created directory: " ++ d) ++ lines,
        l ≠ "Organization complete.") :=
  c5_log_file_layout posix treeAfterFirstRun ["out"] [ruleNote] _ rfl
    (fun _ _ _ h => posix_write_read h)
    (fun _ _ _ _ h hc => posix_append_read h hc)
    (fun _ _ _ h => posix_mkdir_read h logFile)
    (fun m hm _ _ h => by
      rw [List.mem_singleton.1 hm] at h
      exact (posix_rename_frame (a := ["a.txt"]) (b := ["out", "a.txt"])
        (q := ["organize_log.txt"]) (by decide) (by decide) (by decide) (by decide)
        (by decide) h).2)
    (by decide) (by decide)
    (fun m hm e h => by
      rw [List.mem_singleton.1 hm] at h
      exact posix_raised_noNewline (by decide) (by decide) (by decide) h)

/-- C5 fails as stated: with the single rule `{ from: 'organize_log.txt', to:
'old.txt' }` the run ends normally, and the log file it leaves holds no start
marker: its first line is the "Moved" line. -/
theorem c5_counterexample :
    (run posix treeEmpty [] [ruleLogAway]).isOk = true ∧
      posix.readFileSync (run posix treeEmpty [] [ruleLogAway]).world.fs "organize_log.txt"
        = some ("Moved: organize_log.txt -> old.txt\n" ++ "Organization complete.\n") ∧
      posix.readFileSync (run posix treeEmpty [] [ruleLogAway]).world.fs "old.txt"
        = some "Starting organization...\n" := by
  decide

/-- C6, as amended: take a run that ends normally, where a successful recursive
`mkdir` makes its path exist and where neither a `mkdir` nor a write or an
append to the log file removes anything. (1) Every listed path exists once the
directory loop is over. (2) A listed path still exists at the end of the run if
no rename of a rule removes it. (3) When a listed path is processed and exists
already, whether as a directory or as a regular file, nothing is done and
nothing printed; when it does not exist it is created and the line "Created
directory: <path>" is printed and appended. (4) A second run from the resulting
state that passes line 10 does nothing and prints nothing for a listed path that
exists in that state. -/
theorem c6_directories_ensured {σ : Type} (F : NodeFs σ) (fs0 : σ) (ds : List String)
    (ms : List MoveRule) (w : World σ) (hrun : run F fs0 ds ms = .ok w)
    (hmkE : ∀ s s' d, F.mkdirSync s d = .ok s' → F.existsSync s' d = true)
    (hmkK : ∀ s s' p d, F.mkdirSync s p = .ok s' → F.existsSync s d = true →
      F.existsSync s' d = true)
    (hapK : ∀ s s' t d, F.appendFileSync s logFile t = .ok s' → F.existsSync s d = true →
      F.existsSync s' d = true)
    (hwrK : ∀ s s' t d, F.writeFileSync s logFile t = .ok s' → F.existsSync s d = true →
      F.existsSync s' d = true) :
    (∃ fs1 w1, F.writeFileSync fs0 logFile startMarker = .ok fs1 ∧
      forEach (createDir F) (started fs1) ds = .ok w1 ∧
      ∀ d ∈ ds, F.existsSync w1.fs d = true) ∧
    (∀ d ∈ ds,
      (∀ m ∈ ms, ∀ s s', F.renameSync s m.from m.to = .ok s' → F.existsSync s d = true →
        F.existsSync s' d = true) →
      F.existsSync w.fs d = true) ∧
    (∀ pre d post fs1 wd, ds = pre ++ d :: post →
      F.writeFileSync fs0 logFile startMarker = .ok fs1 →
      forEach (createDir F) (started fs1) pre = .ok wd →
      (F.existsSync wd.fs d = true → createDir F wd d = .ok wd) ∧
      (F.existsSync wd.fs d = false →
        ∃ fsm fs2, F.mkdirSync wd.fs d = .ok fsm ∧
          F.appendFileSync fsm logFile ("Created directory: " ++ d ++ "\n") = .ok fs2 ∧
          createDir F wd d = .ok
            { fs := fs2, stdout := wd.stdout ++ ["Created directory: " ++ d],
              logWrites := wd.logWrites ++ ["Created directory: " ++ d ++ "\n"] })) ∧
    (∀ pre d post fs1 wd, ds = pre ++ d :: post → F.existsSync w.fs d = true →
      F.writeFileSync w.fs logFile startMarker = .ok fs1 →
      forEach (createDir F) (started fs1) pre = .ok wd → createDir F wd d = .ok wd) := by
  obtain ⟨fs1, w1, w2, h0, hd, hmv, hl⟩ := run_eq_ok F hrun
  have hkeep : ∀ p : String, StepInv F [] (fun s _ => F.existsSync s p = true) := fun p =>
    { mkdir := fun s s' q _ h hs => hmkK s s' q p h hs
      rename := fun m hm => by cases hm
      append := fun s s' t _ h hs => hapK s s' t p h hs }
  have hall : ∀ (ds1 : List String) (wa wb : World σ),
      forEach (createDir F) wa ds1 = .ok wb → ∀ d ∈ ds1, F.existsSync wb.fs d = true := by
    intro ds1
    induction ds1 with
    | nil => intro _ _ _ d hdm; cases hdm
    | cons x xs ih =>
      intro wa wb h d hdm
      cases hx : createDir F wa x with
      | threw wt e =>
        rw [forEach_cons_of_threw hx] at h
        cases h
      | ok wc =>
        rw [forEach_cons_of_ok hx] at h
        rcases List.mem_cons.1 hdm with rfl | hdm
        · apply forEach_createDir_ok_inv F (hkeep d) xs h
          rcases createDir_eq_ok F hx with ⟨hex, rfl⟩ | ⟨_, fsm, fs2, hm, ha, rfl⟩
          · exact hex
          · exact hapK _ _ _ _ ha (hmkE _ _ _ hm)
        · exact ih wc wb h d hdm
  refine ⟨⟨fs1, w1, h0, hd, hall ds _ _ hd⟩, ?_, ?_, ?_⟩
  · intro d hdm hrn
    have hJ : StepInv F ms (fun s _ => F.existsSync s d = true) :=
      { mkdir := fun s s' q _ h hs => hmkK s s' q d h hs
        rename := fun m hm s s' _ h hs => hrn m hm s s' h hs
        append := fun s s' t _ h hs => hapK s s' t d h hs }
    have h2 := forEach_moveFile_ok_inv F hJ ms (fun _ hm => hm) hmv (hall ds _ _ hd d hdm)
    obtain ⟨fs3, ha, rfl⟩ := log_eq_ok F hl
    exact hapK _ _ _ _ ha h2
  · intro pre d post fs1' wd hsplit h0' hpre
    rw [h0] at h0'
    cases h0'
    refine ⟨createDir_of_exists F, ?_⟩
    intro hmiss
    rw [hsplit, forEach_append_of_ok hpre] at hd
    cases hx : createDir F wd d with
    | threw wt e =>
      rw [forEach_cons_of_threw hx] at hd
      cases hd
    | ok wc =>
      rcases createDir_eq_ok F hx with ⟨hex, _⟩ | ⟨_, fsm, fs2, hm, ha, rfl⟩
      · rw [hex] at hmiss
        cases hmiss
      · exact ⟨fsm, fs2, hm, ha, rfl⟩
  · intro pre d post fs1' wd _ hex h0' hpre
    apply createDir_of_exists
    exact forEach_createDir_ok_inv F (hkeep d) pre hpre (hwrK _ _ _ _ h0' hex)

/-- C6 on `dirs = ['out']` and the rule `{ from: 'a.txt', to: 'out/a.txt' }`:
`out` exists after the directory loop and at the end of the run. -/
theorem c6_directories_ensured_witness :
    (∃ fs1 w1, posix.writeFileSync treeNote logFile startMarker = .ok fs1 ∧
      forEach (createDir posix) (started fs1) ["out"] = .ok w1 ∧
      ∀ d ∈ ["out"], posix.existsSync w1.fs d = true) ∧
    posix.existsSync (run posix treeNote ["out"] [ruleNote]).world.fs "out" = true :=
  ⟨(c6_directories_ensured posix treeNote ["out"] [ruleNote] _ rfl
      (fun _ _ _ h => posixMkdir_exists h) (fun _ _ _ _ h hs => posix_mkdir_keeps h hs)
      (fun _ _ _ _ h hs => posix_append_keeps h hs)
      (fun _ _ _ _ h hs => posix_write_keeps h hs)).1,
    (c6_directories_ensured posix treeNote ["out"] [ruleNote] _ rfl
      (fun _ _ _ h => posixMkdir_exists h) (fun _ _ _ _ h hs => posix_mkdir_keeps h hs)
      (fun _ _ _ _ h hs => posix_append_keeps h hs)
      (fun _ _ _ _ h hs => posix_write_keeps h hs)).2.1 "out" (by decide)
      (fun m hm _ _ h hs => by
        rw [List.mem_singleton.1 hm] at h
        rw [(posix_rename_frame (a := ["a.txt"]) (b := ["out", "a.txt"]) (q := ["out"])
          (by decide) (by decide) (by decide) (by decide) (by decide) h).1]
        exact hs)⟩

/-- C6 fails as stated: with a regular file named `data` in the working
directory and `dirs = ['data']` the run ends normally and `data` is still a
regular file, not a directory. -/
theorem c6_counterexample :
    (run posix treeData ["data"] []).isOk = true ∧
      posix.readFileSync (run posix treeData ["data"] []).world.fs "data" = some "x" ∧
      isDirE (get (run posix treeData ["data"] []).world.fs ["data"]) = false ∧
      (run posix treeData ["data"] []).world.stdout = ["Organization complete."] := by
  decide

/-- C9, as amended: for every run, if line 10 fails nothing is printed and
nothing written. Otherwise what the log file received is the start marker
followed by printed lines, each with its newline, in the order they were
printed: every line written was printed, and a printed line is missing only if
its append threw. When no append to the log file can throw, the log file
received the start marker followed by exactly the printed lines. The start
marker itself is never printed. -/
theorem c9_stdout_mirrors_log_after_marker {σ : Type} (F : NodeFs σ) (fs0 : σ)
    (ds : List String) (ms : List MoveRule) :
    (∀ e, F.writeFileSync fs0 logFile startMarker = .error e →
      (run F fs0 ds ms).world.stdout = [] ∧ (run F fs0 ds ms).world.logWrites = []) ∧
    (∀ fs1, F.writeFileSync fs0 logFile startMarker = .ok fs1 →
      (∃ sub, List.Sublist sub (run F fs0 ds ms).world.stdout ∧
        (run F fs0 ds ms).world.logWrites
          = "Starting organization...\n" :: sub.map (fun l => l ++ "\n")) ∧
      ((∀ s t e, F.appendFileSync s logFile t ≠ .error e) →
        (run F fs0 ds ms).world.logWrites
          = "Starting organization...\n" ::
            (run F fs0 ds ms).world.stdout.map (fun l => l ++ "\n")) ∧
      ∀ l ∈ (run F fs0 ds ms).world.stdout, l ≠ "Starting organization...") := by
  refine ⟨?_, ?_⟩
  · intro e he
    simp [run, he, Result.world]
  · intro fs1 h0
    refine ⟨?_, ?_, ?_⟩
    · exact run_trace F (traceInv_sublist F) ds ms h0 ⟨[], List.Sublist.slnil, rfl⟩
    · intro hlog
      exact run_trace F (traceInv_mirror F hlog) ds ms h0 rfl
    · intro l hl
      have := run_trace F (traceInv_lines F) ds ms h0 (by simp)
      exact isLine_ne_start (this l hl)

/-- C9 fails as stated: a run with no directory and no rule hands two lines to
the log file and prints one; the start marker never reaches standard output. -/
theorem c9_counterexample :
    (run posix treeEmpty [] []).isOk = true ∧
      (run posix treeEmpty [] []).world.stdout = ["Organization complete."] ∧
      (run posix treeEmpty [] []).world.logWrites
        = ["Starting organization...\n", "Organization complete.\n"] ∧
      posix.readFileSync (run posix treeEmpty [] []).world.fs "organize_log.txt"
        = some "Starting organization...\nOrganization complete.\n" := by
  decide

/-- C7, as amended: setup failures are fatal, and so is a failing append to the
log file. (1) When line 10 fails, the run ends with that error before anything
is printed or changed. (2) When a listed directory is missing and cannot be
created, the run ends with that error in the state reached before that
directory: no later directory is created, no rule is attempted, "Organization
complete." is not printed. (3) A run that ends with an error ended in one of
these two ways or with the error of an append to the log file, thrown by `log`
for the line printed last. -/
theorem c7_setup_failures_are_fatal {σ : Type} (F : NodeFs σ) (fs0 : σ)
    (ds : List String) (ms : List MoveRule) :
    (∀ e, F.writeFileSync fs0 logFile startMarker = .error e →
      run F fs0 ds ms = .threw { fs := fs0, stdout := [], logWrites := [] } e) ∧
    (∀ fs1 pre d post wd e, ds = pre ++ d :: post →
      F.writeFileSync fs0 logFile startMarker = .ok fs1 →
      forEach (createDir F) (started fs1) pre = .ok wd →
      F.existsSync wd.fs d = false → F.mkdirSync wd.fs d = .error e →
      run F fs0 ds ms = .threw wd e ∧ "Organization complete." ∉ wd.stdout) ∧
    (∀ w e, run F fs0 ds ms = .threw w e →
      F.writeFileSync fs0 logFile startMarker = .error e ∨
      (∃ fs1 pre d post, ds = pre ++ d :: post ∧
        F.writeFileSync fs0 logFile startMarker = .ok fs1 ∧
        forEach (createDir F) (started fs1) pre = .ok w ∧
        F.existsSync w.fs d = false ∧ F.mkdirSync w.fs d = .error e) ∨
      (∃ line, w.stdout.getLast? = some line ∧
        F.appendFileSync w.fs logFile (line ++ "\n") = .error e)) := by
  refine ⟨?_, ?_, ?_⟩
  · intro e he
    simp [run, he]
  · intro fs1 pre d post wd e hsplit h0 hpre hmiss hmk
    have hthrew : forEach (createDir F) (started fs1) ds = .threw wd e := by
      rw [hsplit, forEach_append_of_ok hpre]
      exact forEach_cons_of_threw (createDir_of_mkdir_error F hmiss hmk) post
    refine ⟨by simp [run, h0, hthrew], ?_⟩
    obtain ⟨created, _, hs, _⟩ := forEach_createDir_ok_writes F pre hpre
    intro hmem
    rw [hs] at hmem
    simp only [started, List.nil_append, List.mem_map] at hmem
    obtain ⟨d', _, hd'⟩ := hmem
    exact created_ne_complete d' hd'
  · intro w e hrun
    cases h0 : F.writeFileSync fs0 logFile startMarker with
    | error e0 =>
      left
      simp [run, h0] at hrun
      rw [hrun.2]
    | ok fs1 =>
      right
      simp only [run, h0] at hrun
      cases hd : forEach (createDir F) (started fs1) ds with
      | threw wd e1 =>
        simp only [hd] at hrun
        cases hrun
        rcases forEach_createDir_eq_threw F ds hd with ⟨pre, d, post, h1, h2, h3, h4⟩ | hlog
        · exact Or.inl ⟨fs1, pre, d, post, h1, rfl, h2, h3, h4⟩
        · exact Or.inr hlog
      | ok w1 =>
        simp only [hd] at hrun
        exact Or.inr (threwByLog_moveAll F ms w1 w e hrun)

/-- C7 fails as stated: line 10 succeeds and there is no directory to create,
yet the run ends with an uncaught error. The rule moves the read-only file
`ro.txt` onto the log file; the append of the "Moved" line then throws, and so
does the append of the "Error moving" line inside the `catch` block. -/
theorem c7_counterexample :
    (posix.writeFileSync treeReadOnly logFile startMarker).toBool = true ∧
      (run posix treeReadOnly [] [ruleOverLog]).isOk = false ∧
      (run posix treeReadOnly [] [ruleOverLog]).world.stdout
        = ["Moved: ro.txt -> organize_log.txt",
           "Error moving ro.txt: EACCES: permission denied, open 'organize_log.txt'"] ∧
      posix.readFileSync (run posix treeReadOnly [] [ruleOverLog]).world.fs
        "organize_log.txt" = some "x" := by
  decide

/-- C8, as amended: when a listed directory is missing and `mkdirSync` fails
with the error `e`, the callback of the directory loop and the loop itself end
with `e` uncaught, in the very state they were entered: no line is printed and
nothing is written to the log file. -/
theorem c8_directory_failure_is_not_logged {σ : Type} (F : NodeFs σ) (w : World σ)
    (d : String) (post : List String) (e : String)
    (hmiss : F.existsSync w.fs d = false) (he : F.mkdirSync w.fs d = .error e) :
    createDir F w d = .threw w e ∧ forEach (createDir F) w (d :: post) = .threw w e := by
  have h := createDir_of_mkdir_error F hmiss he
  exact ⟨h, forEach_cons_of_threw h post⟩

/-- C8 at the first directory of the script, `docs/reports`, where `docs` is a
regular file. -/
theorem c8_directory_failure_is_not_logged_witness :
    createDir posix (started treeDocsStarted) "docs/reports"
        = .threw (started treeDocsStarted) "ENOTDIR: not a directory, mkdir 'docs/reports'" ∧
      forEach (createDir posix) (started treeDocsStarted) ("docs/reports" :: dirs.tail)
        = .threw (started treeDocsStarted) "ENOTDIR: not a directory, mkdir 'docs/reports'" :=
  c8_directory_failure_is_not_logged posix (started treeDocsStarted) "docs/reports" dirs.tail _
    (by decide) rfl

/-- C8 fails as stated: started where `docs` is a regular file, the script as
it stands ends with an uncaught error at its first directory; nothing was
printed, and the log file holds the start marker and nothing else. -/
theorem c8_counterexample :
    (organize posix treeDocs).isOk = false ∧
      (organize posix treeDocs).world.stdout = [] ∧
      (organize posix treeDocs).world.logWrites = ["Starting organization...\n"] ∧
      posix.readFileSync (organize posix treeDocs).world.fs "organize_log.txt"
        = some "Starting organization...\n" ∧
      posix.existsSync (organize posix treeDocs).world.fs "docs/reports" = false := by
  decide

end Organize
